import Mathlib

/-!
Verification of the `verify_student` management commands of edx-platform:
`populate_expiry_date` (backfill of `expiry_date` on approved verification
records) and `send_verification_expiry_email` (batched expiry notification).

The embedding is a shallow one over the store of
`SoftwareSecurePhotoVerification` rows, modelled as a `List` of records.
Timestamps are integers (seconds since the epoch); a `timedelta(days = d)`
is `d * dayLen` with `dayLen = 86400`, and the calendar day of a timestamp
is its floor-division by `dayLen`.

Both commands read through `use_read_replica_if_available`, i.e. from a read
replica, while updates go to the primary; moreover the only fields either
run mutates (`expiry_email_date` for the notification command, `expiry_date`
for the backfill) occur in no queryset filter (`status`, `expiry_date` range)
nor ordering (`user_id`, `updated_at`) used by that same run, and each
record's fresh read happens strictly before any update of that record.  The
lazily re-evaluated querysets therefore coincide with their initial snapshot,
and the embedding computes the selection once up front while threading the
store state only through the updates.
-/

/-- One `SoftwareSecurePhotoVerification` row.  `pk` is the primary key,
`status` the verification status string, `updated_at` the last-modification
timestamp (not touched by `queryset.update`, which bypasses `auto_now`). -/
structure SoftwareSecurePhotoVerification where
  pk : Nat
  user_id : Nat
  status : String
  expiry_date : Option Int
  expiry_email_date : Option Int
  updated_at : Int
deriving DecidableEq, Repr

abbrev SSPV := SoftwareSecurePhotoVerification

/-- Length of one day, in the integer time unit of the model (seconds). -/
def dayLen : Int := 86400

/-- The calendar day of a timestamp (UTC dates are floor-division by a day). -/
def calendarDay (t : Int) : Int := t / dayLen

/-- Filter of the notification command's queryset:
`status='approved', expiry_date__lt=now, expiry_date__gt=now - days`.
A null `expiry_date` fails both comparisons (SQL semantics). -/
def approvedInRange (now days : Int) (r : SSPV) : Bool :=
  r.status == "approved" &&
    match r.expiry_date with
    | some d => decide (d < now) && decide (now - days * dayLen < d)
    | none => false

/-- The notification command's filtered queryset `sspv`. -/
def selectQS (st : List SSPV) (now days : Int) : List SSPV :=
  st.filter (approvedInRange now days)

/-- The backfill command's queryset: `status='approved'`. -/
def approvedQS (st : List SSPV) : List SSPV :=
  st.filter (fun r => r.status == "approved")

/-- Insert into a weakly sorted list of user ids. -/
def insertSorted (x : Nat) : List Nat → List Nat
  | [] => [x]
  | y :: ys => if x ≤ y then x :: y :: ys else y :: insertSorted x ys

/-- Sort a list of user ids ascending (the `order_by('user_id')`). -/
def sortNat : List Nat → List Nat
  | [] => []
  | x :: xs => insertSorted x (sortNat xs)

/-- Collapse adjacent duplicates (the `.distinct()` on a sorted projection). -/
def dedupAdj : List Nat → List Nat
  | [] => []
  | [x] => [x]
  | x :: y :: ys => if x = y then dedupAdj (y :: ys) else x :: dedupAdj (y :: ys)

/-- `qs.values('user_id').distinct()` on a queryset ordered by `user_id`:
the distinct user ids in ascending order. -/
def userIdsOf (rs : List SSPV) : List Nat :=
  dedupAdj (sortNat (rs.map (·.user_id)))

/-- Helper of `find_recent_verification`: the element with the greatest
`updated_at` (first such element on ties, matching an arbitrary but fixed
database choice for `latest` among equal keys). -/
def latestAux (r : SSPV) : List SSPV → SSPV
  | [] => r
  | s :: ss => if r.updated_at < s.updated_at then latestAux s ss else latestAux r ss

/-- `Command.find_recent_verification(model, user_id)`:
`model.filter(user_id=user_id).latest('updated_at')`, `none` when the
filtered queryset is empty (`.latest` would raise `DoesNotExist`; the
callers only invoke it for user ids drawn from `model` itself). -/
def find_recent_verification (rs : List SSPV) (u : Nat) : Option SSPV :=
  match rs.filter (fun r => r.user_id == u) with
  | [] => none
  | r :: ss => some (latestAux r ss)

/-- The qualification test of the notification command's loop:
`not verification.expiry_email_date or verification.expiry_email_date < date_resend_days_ago`
with `date_resend_days_ago = now - timedelta(days=resend_days)`. -/
def qualifies (now resendDays : Int) (v : SSPV) : Bool :=
  match v.expiry_email_date with
  | none => true
  | some d => decide (d < now - resendDays * dayLen)

/-- External collaborators of the celery task: whether
`User.objects.get(id=u)` succeeds, and whether `send_mail` to that user's
address succeeds (else it raises `SMTPException`). -/
structure MailEnv where
  userExists : Nat → Bool
  smtpOk : Nat → Bool

/-- A mail environment in which every user exists and every send succeeds. -/
def allOkEnv : MailEnv := ⟨fun _ => true, fun _ => true⟩

/-- `SoftwareSecurePhotoVerification.objects.filter(pk=p).update(expiry_email_date=t)`. -/
def stampEmailDate (st : List SSPV) (p : Nat) (t : Int) : List SSPV :=
  st.map fun r => if r.pk == p then { r with expiry_email_date := some t } else r

/-- `SoftwareSecurePhotoVerification.objects.filter(pk=p).update(expiry_date=t)`. -/
def stampExpiryDate (st : List SSPV) (p : Nat) (t : Int) : List SSPV :=
  st.map fun r => if r.pk == p then { r with expiry_date := some t } else r

/-- Observable outcome of one run of the celery task
`send_verification_expiry_email` on a batch: the store after its updates,
the pks of the verifications an email went out for, the user ids for which
an `SMTPException` was caught and a warning logged, and whether a non-SMTP
exception (a failed user lookup) propagated out of the task. -/
structure TaskResult where
  state : List SSPV
  emails : List Nat
  warnings : List Nat
  raised : Bool
deriving DecidableEq, Repr

/-- The celery task `send_verification_expiry_email(batch_verifications)`:
for each verification look the user up (a miss raises out of the task,
abandoning the rest of the batch but keeping updates already made), render
and send the email, and on success stamp `expiry_email_date` with the send
time; an `SMTPException` is caught, logged as a warning, and leaves the
record unstamped. -/
def send_verification_expiry_email (env : MailEnv) (now : Int) :
    List SSPV → List SSPV → TaskResult
  | st, [] => ⟨st, [], [], false⟩
  | st, v :: vs =>
    if env.userExists v.user_id then
      if env.smtpOk v.user_id then
        let r := send_verification_expiry_email env now (stampEmailDate st v.pk now) vs
        ⟨r.state, v.pk :: r.emails, r.warnings, r.raised⟩
      else
        let r := send_verification_expiry_email env now st vs
        ⟨r.state, r.emails, v.user_id :: r.warnings, r.raised⟩
    else
      ⟨st, [], [], true⟩

/-- Observable outcome of a run of the notification command: the store after
the run, the pks emailed (in order), the ghost list of records appended to
batches, the batches dispatched (or, dry, logged), and the
`(first user id, last user id)` pairs logged by dry-run dispatches. -/
structure RunResult where
  state : List SSPV
  emails : List Nat
  appended : List SSPV
  batches : List (List SSPV)
  dryLogs : List (Nat × Nat)
deriving DecidableEq, Repr

/-- Placeholder used only for the (never taken) head of an empty batch. -/
def dummySSPV : SSPV := ⟨0, 0, "", none, none, 0⟩

/-- The user loop of `Command.handle` in `send_verification_expiry_email`:
for each distinct user of the filtered queryset `sel`, take the most recent
filtered verification; when it qualifies append it to the batch; when
`len(batch_verifications) == batch_size or total_verification < batch_size`
dispatch the batch (or log its user-id range on a dry run) and decrement
`total_verification` by `batch_size`.  A trailing non-dispatched batch is
dropped when the loop ends. -/
def send_expiry_email_loop (env : MailEnv) (now resendDays batchSize : Int)
    (dryRun : Bool) (sel : List SSPV) :
    List Nat → List SSPV → Int → List SSPV → RunResult
  | [], st, _, _ => ⟨st, [], [], [], []⟩
  | u :: us, st, total, batch =>
    match find_recent_verification sel u with
    | none => send_expiry_email_loop env now resendDays batchSize dryRun sel us st total batch
    | some v =>
      if qualifies now resendDays v then
        let batch' := batch ++ [v]
        if ((batch'.length : Int) == batchSize || decide (total < batchSize)) then
          if dryRun then
            let r := send_expiry_email_loop env now resendDays batchSize dryRun sel us st
              (total - batchSize) []
            ⟨r.state, r.emails, v :: r.appended, batch' :: r.batches,
              ((batch'.headD dummySSPV).user_id, (batch'.getLastD dummySSPV).user_id) :: r.dryLogs⟩
          else
            let tr := send_verification_expiry_email env now st batch'
            let r := send_expiry_email_loop env now resendDays batchSize dryRun sel us tr.state
              (total - batchSize) []
            ⟨r.state, tr.emails ++ r.emails, v :: r.appended, batch' :: r.batches, r.dryLogs⟩
        else
          let r := send_expiry_email_loop env now resendDays batchSize dryRun sel us st total batch'
          ⟨r.state, r.emails, v :: r.appended, r.batches, r.dryLogs⟩
      else
        send_expiry_email_loop env now resendDays batchSize dryRun sel us st total batch

/-- `Command.handle` of `send_verification_expiry_email`: filter approved
records with `expiry_date` in `(now - days, now)` ordered by user id; when
none are found log and return; otherwise loop over the distinct user ids
with `total_verification` the count of the filtered queryset. -/
def send_expiry_email_handle (env : MailEnv) (now resendDays batchSize days : Int)
    (dryRun : Bool) (st : List SSPV) : RunResult :=
  let sel := selectQS st now days
  let total : Int := sel.length
  if total == 0 then ⟨st, [], [], [], []⟩
  else send_expiry_email_loop env now resendDays batchSize dryRun sel (userIdsOf sel) st total []

/-- Observable outcome of a run of the backfill command: the store after the
run, the number of `time.sleep` calls made, and the ghost count of records
whose `expiry_date` was set. -/
structure PopResult where
  state : List SSPV
  sleeps : Nat
  updates : Nat
deriving DecidableEq, Repr

/-- The user loop of `Command.handle` in `populate_expiry_date`: for each
distinct user of the approved queryset `appr`, take the most recent approved
verification; when its `expiry_date` is unset, set it to
`updated_at + timedelta(days=daysGoodFor)` and increment
`updated_verification_count`; whenever that counter equals `batch_size`,
reset it and sleep. -/
def populate_expiry_date_loop (daysGoodFor batchSize : Int) (appr : List SSPV) :
    List Nat → List SSPV → Nat → PopResult
  | [], st, _ => ⟨st, 0, 0⟩
  | u :: us, st, count =>
    match find_recent_verification appr u with
    | none => populate_expiry_date_loop daysGoodFor batchSize appr us st count
    | some v =>
      match v.expiry_date with
      | some _ =>
        if ((count : Int) == batchSize) then
          let r := populate_expiry_date_loop daysGoodFor batchSize appr us st 0
          ⟨r.state, r.sleeps + 1, r.updates⟩
        else
          populate_expiry_date_loop daysGoodFor batchSize appr us st count
      | none =>
        let st' := stampExpiryDate st v.pk (v.updated_at + daysGoodFor * dayLen)
        if (((count + 1 : Nat) : Int) == batchSize) then
          let r := populate_expiry_date_loop daysGoodFor batchSize appr us st' 0
          ⟨r.state, r.sleeps + 1, r.updates + 1⟩
        else
          let r := populate_expiry_date_loop daysGoodFor batchSize appr us st' (count + 1)
          ⟨r.state, r.sleeps, r.updates + 1⟩

/-- `Command.handle` of `populate_expiry_date`: filter approved records
ordered by user id; when none exist log and return; otherwise loop over the
distinct user ids with the update counter starting at zero. -/
def populate_expiry_date_handle (daysGoodFor batchSize : Int) (st : List SSPV) : PopResult :=
  let appr := approvedQS st
  if appr.length == 0 then ⟨st, 0, 0⟩
  else populate_expiry_date_loop daysGoodFor batchSize appr (userIdsOf appr) st 0

/-- A record is a maximal-`updated_at` record for its user within `rs`. -/
def maxUpdatedAmong (rs : List SSPV) (v : SSPV) : Prop :=
  v ∈ rs ∧ ∀ w ∈ rs, w.user_id = v.user_id → w.updated_at ≤ v.updated_at

/-- Every user exists and every send succeeds in `env`. -/
def envAllOk (env : MailEnv) : Prop :=
  ∀ u, env.userExists u = true ∧ env.smtpOk u = true

/-! ### Sorting and deduplication of the user-id projection -/

theorem mem_insertSorted {y x : Nat} {l : List Nat} :
    y ∈ insertSorted x l ↔ y = x ∨ y ∈ l := by
  induction l with
  | nil => simp [insertSorted]
  | cons z zs ih =>
    by_cases h : x ≤ z
    · simp [insertSorted, h]
    · simp [insertSorted, h, ih]
      tauto

theorem pairwise_insertSorted {x : Nat} {l : List Nat}
    (h : l.Pairwise (· ≤ ·)) : (insertSorted x l).Pairwise (· ≤ ·) := by
  induction l with
  | nil => simp [insertSorted]
  | cons z zs ih =>
    rcases List.pairwise_cons.1 h with ⟨hz, hzs⟩
    by_cases hx : x ≤ z
    · simp only [insertSorted, if_pos hx]
      refine List.pairwise_cons.2 ⟨?_, h⟩
      intro w hw
      rcases List.mem_cons.1 hw with rfl | hw
      · exact hx
      · exact le_trans hx (hz _ hw)
    · simp only [insertSorted, if_neg hx]
      refine List.pairwise_cons.2 ⟨?_, ih hzs⟩
      intro w hw
      rcases mem_insertSorted.1 hw with rfl | hw
      · exact le_of_not_le hx
      · exact hz _ hw

theorem mem_sortNat {y : Nat} {l : List Nat} : y ∈ sortNat l ↔ y ∈ l := by
  induction l with
  | nil => simp [sortNat]
  | cons z zs ih => simp [sortNat, mem_insertSorted, ih]

theorem pairwise_sortNat (l : List Nat) : (sortNat l).Pairwise (· ≤ ·) := by
  induction l with
  | nil => simp [sortNat]
  | cons z zs ih => exact pairwise_insertSorted ih

theorem mem_dedupAdj {y : Nat} {l : List Nat} : y ∈ dedupAdj l ↔ y ∈ l := by
  induction l using dedupAdj.induct with
  | case1 => simp [dedupAdj]
  | case2 x => simp [dedupAdj]
  | case3 z zs ih => simp [dedupAdj, ih]
  | case4 x z zs h ih => simp [dedupAdj, h, ih]

theorem pairwise_lt_dedupAdj {l : List Nat}
    (h : l.Pairwise (· ≤ ·)) : (dedupAdj l).Pairwise (· < ·) := by
  induction l using dedupAdj.induct with
  | case1 => simp [dedupAdj]
  | case2 x => simp [dedupAdj]
  | case3 z zs ih =>
    simp only [dedupAdj, if_pos rfl]
    exact ih h.tail
  | case4 x z zs hxz ih =>
    simp only [dedupAdj, if_neg hxz]
    rcases List.pairwise_cons.1 h with ⟨hz, hzs⟩
    refine List.pairwise_cons.2 ⟨?_, ih hzs⟩
    intro w hw
    have hxz' : x < z := lt_of_le_of_ne (hz _ (by simp)) hxz
    rcases List.mem_cons.1 (mem_dedupAdj.1 hw) with rfl | hw
    · exact hxz'
    · exact lt_of_lt_of_le hxz' ((List.pairwise_cons.1 hzs).1 _ hw)

theorem pairwise_le_userIdsOf (rs : List SSPV) :
    (userIdsOf rs).Pairwise (· ≤ ·) :=
  (pairwise_lt_dedupAdj (pairwise_sortNat _)).imp le_of_lt

theorem nodup_userIdsOf (rs : List SSPV) : (userIdsOf rs).Nodup :=
  (pairwise_lt_dedupAdj (pairwise_sortNat _)).imp ne_of_lt

theorem mem_userIdsOf {u : Nat} {rs : List SSPV} :
    u ∈ userIdsOf rs ↔ ∃ r ∈ rs, r.user_id = u := by
  unfold userIdsOf
  rw [mem_dedupAdj, mem_sortNat, List.mem_map]

/-! ### `find_recent_verification` picks the maximum `updated_at` -/

theorem latestAux_mem (r : SSPV) (l : List SSPV) : latestAux r l ∈ r :: l := by
  induction l generalizing r with
  | nil => simp [latestAux]
  | cons s ss ih =>
    by_cases h : r.updated_at < s.updated_at
    · simp only [latestAux, if_pos h]
      rcases List.mem_cons.1 (ih s) with h' | h' <;> simp [h']
    · simp only [latestAux, if_neg h]
      rcases List.mem_cons.1 (ih r) with h' | h' <;> simp [h']

theorem latestAux_self_le (r : SSPV) (l : List SSPV) :
    r.updated_at ≤ (latestAux r l).updated_at := by
  induction l generalizing r with
  | nil => simp [latestAux]
  | cons s ss ih =>
    by_cases h : r.updated_at < s.updated_at
    · simp only [latestAux, if_pos h]
      exact le_trans (le_of_lt h) (ih s)
    · simp only [latestAux, if_neg h]
      exact ih r

theorem latestAux_le (r : SSPV) (l : List SSPV) :
    ∀ w ∈ r :: l, w.updated_at ≤ (latestAux r l).updated_at := by
  induction l generalizing r with
  | nil =>
    intro w hw
    rcases List.mem_cons.1 hw with rfl | hw
    · exact latestAux_self_le _ _
    · cases hw
  | cons s ss ih =>
    intro w hw
    rcases List.mem_cons.1 hw with rfl | hw2
    · exact latestAux_self_le _ _
    · by_cases h : r.updated_at < s.updated_at
      · simp only [latestAux, if_pos h]
        exact ih s w hw2
      · simp only [latestAux, if_neg h]
        rcases List.mem_cons.1 hw2 with rfl | hw3
        · exact le_trans (le_of_not_lt h) (latestAux_self_le _ _)
        · exact ih r w (List.mem_cons_of_mem _ hw3)

theorem find_recent_spec {rs : List SSPV} {u : Nat} {v : SSPV}
    (h : find_recent_verification rs u = some v) :
    v ∈ rs ∧ v.user_id = u ∧ ∀ w ∈ rs, w.user_id = u → w.updated_at ≤ v.updated_at := by
  unfold find_recent_verification at h
  rcases hf : rs.filter (fun r => r.user_id == u) with _ | ⟨r, ss⟩ <;> rw [hf] at h
  · cases h
  · have hv : v = latestAux r ss := by
      have := h
      simp only [Option.some.injEq] at this
      exact this.symm
    have hmem : v ∈ rs.filter (fun r => r.user_id == u) := by
      rw [hf, hv]; exact latestAux_mem r ss
    have hin := List.mem_filter.1 hmem
    refine ⟨hin.1, by simpa using hin.2, ?_⟩
    intro w hw hwu
    have hwf : w ∈ rs.filter (fun r => r.user_id == u) :=
      List.mem_filter.2 ⟨hw, by simp [hwu]⟩
    rw [hf] at hwf
    rw [hv]
    exact latestAux_le r ss w hwf

theorem find_recent_isSome {rs : List SSPV} {u : Nat}
    (h : ∃ r ∈ rs, r.user_id = u) :
    ∃ v, find_recent_verification rs u = some v := by
  unfold find_recent_verification
  rcases hf : rs.filter (fun r => r.user_id == u) with _ | ⟨r, ss⟩
  · exfalso
    rcases h with ⟨r, hr, hru⟩
    have hrf : r ∈ rs.filter (fun r => r.user_id == u) :=
      List.mem_filter.2 ⟨hr, by simp [hru]⟩
    rw [hf] at hrf
    cases hrf
  · exact ⟨latestAux r ss, by rw [hf]⟩

/-! ### Characterizing the store updates of the notification task -/

/-- Cumulative effect on one record of the `expiry_email_date` stamps made
for the pks in `S`, all with the same timestamp `t`. -/
def stampEmailIf (S : List Nat) (t : Int) (r : SSPV) : SSPV :=
  if r.pk ∈ S then { r with expiry_email_date := some t } else r

theorem stampEmailIf_pk (S : List Nat) (t : Int) (r : SSPV) :
    (stampEmailIf S t r).pk = r.pk := by
  unfold stampEmailIf; split <;> rfl

theorem stampEmailIf_keeps (S : List Nat) (t : Int) (r : SSPV) :
    (stampEmailIf S t r).pk = r.pk ∧ (stampEmailIf S t r).user_id = r.user_id ∧
      (stampEmailIf S t r).status = r.status ∧
      (stampEmailIf S t r).expiry_date = r.expiry_date ∧
      (stampEmailIf S t r).updated_at = r.updated_at := by
  unfold stampEmailIf; split <;> exact ⟨rfl, rfl, rfl, rfl, rfl⟩

theorem stampEmailIf_not_mem {S : List Nat} {t : Int} {r : SSPV}
    (h : r.pk ∉ S) : stampEmailIf S t r = r := by
  unfold stampEmailIf; rw [if_neg h]

theorem stampEmailIf_mem {S : List Nat} {t : Int} {r : SSPV}
    (h : r.pk ∈ S) : stampEmailIf S t r = { r with expiry_email_date := some t } := by
  unfold stampEmailIf; rw [if_pos h]

theorem map_stampEmailIf_nil (t : Int) (st : List SSPV) :
    st.map (stampEmailIf [] t) = st := by
  rw [show stampEmailIf [] t = id from ?_, List.map_id]
  funext r
  simp [stampEmailIf]

theorem stampEmailDate_eq_map (st : List SSPV) (p : Nat) (t : Int) :
    stampEmailDate st p t = st.map (stampEmailIf [p] t) := by
  unfold stampEmailDate
  apply List.map_congr_left
  intro r _
  by_cases h : r.pk = p
  · simp [stampEmailIf, h]
  · simp [stampEmailIf, h]

theorem stampEmailIf_append (S T : List Nat) (t : Int) (r : SSPV) :
    stampEmailIf T t (stampEmailIf S t r) = stampEmailIf (S ++ T) t r := by
  by_cases hS : r.pk ∈ S
  · rw [stampEmailIf_mem hS]
    by_cases hT : r.pk ∈ T
    · rw [stampEmailIf_mem (by simpa using hT), stampEmailIf_mem (by simp [hS])]
    · rw [stampEmailIf_not_mem (by simpa using hT), stampEmailIf_mem (by simp [hS])]
  · rw [stampEmailIf_not_mem hS]
    by_cases hT : r.pk ∈ T
    · rw [stampEmailIf_mem hT, stampEmailIf_mem (by simp [hT])]
    · rw [stampEmailIf_not_mem hT, stampEmailIf_not_mem (by simp [hS, hT])]

theorem map_stampEmailIf_append (S T : List Nat) (t : Int) (st : List SSPV) :
    (st.map (stampEmailIf S t)).map (stampEmailIf T t) = st.map (stampEmailIf (S ++ T) t) := by
  rw [List.map_map]
  apply List.map_congr_left
  intro r _
  exact stampEmailIf_append S T t r

/-! ### Behaviour of the celery task `send_verification_expiry_email` -/

theorem task_state_char (env : MailEnv) (now : Int) (vs : List SSPV) :
    ∀ st : List SSPV,
      (send_verification_expiry_email env now st vs).state =
        st.map (stampEmailIf (send_verification_expiry_email env now st vs).emails now) := by
  induction vs with
  | nil =>
    intro st
    simp [send_verification_expiry_email, map_stampEmailIf_nil]
  | cons v vs ih =>
    intro st
    by_cases hu : env.userExists v.user_id
    · by_cases hs : env.smtpOk v.user_id
      · simp only [send_verification_expiry_email, if_pos hu, if_pos hs]
        rw [ih (stampEmailDate st v.pk now), stampEmailDate_eq_map,
          map_stampEmailIf_append]
        rfl
      · simp only [send_verification_expiry_email, if_pos hu, if_neg hs]
        exact ih st
    · simp [send_verification_expiry_email, if_neg hu, map_stampEmailIf_nil]

theorem task_emails_sub (env : MailEnv) (now : Int) (vs : List SSPV) :
    ∀ st : List SSPV, ∀ p ∈ (send_verification_expiry_email env now st vs).emails,
      ∃ v ∈ vs, v.pk = p := by
  induction vs with
  | nil =>
    intro st p hp
    simp [send_verification_expiry_email] at hp
  | cons v vs ih =>
    intro st p hp
    by_cases hu : env.userExists v.user_id
    · by_cases hs : env.smtpOk v.user_id
      · simp only [send_verification_expiry_email, if_pos hu, if_pos hs] at hp
        rcases List.mem_cons.1 hp with rfl | hp
        · exact ⟨v, by simp⟩
        · rcases ih _ p hp with ⟨w, hw, hwp⟩
          exact ⟨w, by simp [hw], hwp⟩
      · simp only [send_verification_expiry_email, if_pos hu, if_neg hs] at hp
        rcases ih _ p hp with ⟨w, hw, hwp⟩
        exact ⟨w, by simp [hw], hwp⟩
    · simp [send_verification_expiry_email, if_neg hu] at hp

theorem task_allexists (env : MailEnv) (now : Int) (vs : List SSPV) :
    ∀ st : List SSPV, (∀ v ∈ vs, env.userExists v.user_id = true) →
      (send_verification_expiry_email env now st vs).raised = false ∧
      (send_verification_expiry_email env now st vs).emails =
        (vs.filter (fun v => env.smtpOk v.user_id)).map (·.pk) ∧
      (send_verification_expiry_email env now st vs).warnings =
        (vs.filter (fun v => !env.smtpOk v.user_id)).map (·.user_id) := by
  induction vs with
  | nil =>
    intro st _
    simp [send_verification_expiry_email]
  | cons v vs ih =>
    intro st hall
    have hu : env.userExists v.user_id = true := hall v (by simp)
    have hall' : ∀ w ∈ vs, env.userExists w.user_id = true :=
      fun w hw => hall w (by simp [hw])
    by_cases hs : env.smtpOk v.user_id
    · simp only [send_verification_expiry_email, if_pos hu, if_pos hs]
      rcases ih (stampEmailDate st v.pk now) hall' with ⟨h1, h2, h3⟩
      refine ⟨h1, ?_, ?_⟩
      · simp [List.filter_cons, hs, h2]
      · simp [List.filter_cons, hs, h3]
    · simp only [send_verification_expiry_email, if_pos hu, if_neg hs]
      rcases ih st hall' with ⟨h1, h2, h3⟩
      refine ⟨h1, ?_, ?_⟩
      · simp [List.filter_cons, hs, h2]
      · simp [List.filter_cons, hs, h3]

theorem task_raise_char (env : MailEnv) (now : Int) (v : SSPV) (post : List SSPV)
    (hmiss : env.userExists v.user_id = false) :
    ∀ (pre : List SSPV) (st : List SSPV), (∀ w ∈ pre, env.userExists w.user_id = true) →
      (send_verification_expiry_email env now st (pre ++ v :: post)).raised = true ∧
      (send_verification_expiry_email env now st (pre ++ v :: post)).emails =
        (pre.filter (fun w => env.smtpOk w.user_id)).map (·.pk) ∧
      (send_verification_expiry_email env now st (pre ++ v :: post)).warnings =
        (pre.filter (fun w => !env.smtpOk w.user_id)).map (·.user_id) := by
  intro pre
  induction pre with
  | nil =>
    intro st _
    simp [send_verification_expiry_email, hmiss]
  | cons w pre ih =>
    intro st hall
    have hw : env.userExists w.user_id = true := hall w (by simp)
    have hall' : ∀ x ∈ pre, env.userExists x.user_id = true :=
      fun x hx => hall x (by simp [hx])
    by_cases hs : env.smtpOk w.user_id
    · simp only [List.cons_append, send_verification_expiry_email, if_pos hw, if_pos hs]
      rcases ih (stampEmailDate st w.pk now) hall' with ⟨h1, h2, h3⟩
      exact ⟨h1, by simp [List.filter_cons, hs, h2], by simp [List.filter_cons, hs, h3]⟩
    · simp only [List.cons_append, send_verification_expiry_email, if_pos hw, if_neg hs]
      rcases ih st hall' with ⟨h1, h2, h3⟩
      exact ⟨h1, by simp [List.filter_cons, hs, h2], by simp [List.filter_cons, hs, h3]⟩

/-! ### Behaviour of the notification command's user loop -/

/-- A record produced by `find_recent_verification` on the filtered queryset. -/
def latestRecOf (sel : List SSPV) (w : SSPV) : Prop :=
  ∃ u, find_recent_verification sel u = some w

theorem loop_master (env : MailEnv) (now resendDays batchSize : Int)
    (dryRun : Bool) (sel : List SSPV) :
    ∀ (us : List Nat) (st : List SSPV) (total : Int) (batch : List SSPV),
      (∀ v ∈ batch, latestRecOf sel v) →
      ∃ S : List Nat,
        (∀ p ∈ S, ∃ w, latestRecOf sel w ∧ w.pk = p) ∧
        (send_expiry_email_loop env now resendDays batchSize dryRun sel us st total batch).state
          = st.map (stampEmailIf S now) ∧
        (∀ p ∈ (send_expiry_email_loop env now resendDays batchSize dryRun sel us st total
          batch).emails, p ∈ S) := by
  intro us
  induction us with
  | nil =>
    intro st total batch _
    exact ⟨[], by simp, by simp [send_expiry_email_loop, map_stampEmailIf_nil],
      by simp [send_expiry_email_loop]⟩
  | cons u us ih =>
    intro st total batch hb
    rcases hf : find_recent_verification sel u with _ | v
    · simpa only [send_expiry_email_loop, hf] using ih st total batch hb
    · by_cases hq : qualifies now resendDays v = true
      · have hb' : ∀ w ∈ batch ++ [v], latestRecOf sel w := by
          intro w hw
          rcases List.mem_append.1 hw with hw | hw
          · exact hb w hw
          · rcases List.mem_singleton.1 hw with rfl
            exact ⟨u, hf⟩
        by_cases hd : (((batch ++ [v]).length : Int) == batchSize
            || decide (total < batchSize)) = true
        · cases dryRun with
          | true =>
            rcases ih st (total - batchSize) [] (by simp) with ⟨S, hS, hstate, hem⟩
            refine ⟨S, hS, ?_, ?_⟩
            · simpa only [send_expiry_email_loop, hf, hq, if_true, hd] using hstate
            · simpa only [send_expiry_email_loop, hf, hq, if_true, hd] using hem
          | false =>
            rcases ih (send_verification_expiry_email env now st (batch ++ [v])).state
              (total - batchSize) [] (by simp) with ⟨S, hS, hstate, hem⟩
            have hred1 : (send_expiry_email_loop env now resendDays batchSize false sel
                (u :: us) st total batch).state =
                (send_expiry_email_loop env now resendDays batchSize false sel us
                  (send_verification_expiry_email env now st (batch ++ [v])).state
                  (total - batchSize) []).state := by
              simp only [send_expiry_email_loop, hf, hq, if_true, hd]
              simp
            have hred2 : (send_expiry_email_loop env now resendDays batchSize false sel
                (u :: us) st total batch).emails =
                (send_verification_expiry_email env now st (batch ++ [v])).emails ++
                (send_expiry_email_loop env now resendDays batchSize false sel us
                  (send_verification_expiry_email env now st (batch ++ [v])).state
                  (total - batchSize) []).emails := by
              simp only [send_expiry_email_loop, hf, hq, if_true, hd]
              simp
            refine ⟨(send_verification_expiry_email env now st (batch ++ [v])).emails ++ S,
              ?_, ?_, ?_⟩
            · intro p hp
              rcases List.mem_append.1 hp with hp | hp
              · rcases task_emails_sub env now (batch ++ [v]) st p hp with ⟨w, hw, hwp⟩
                exact ⟨w, hb' w hw, hwp⟩
              · exact hS p hp
            · rw [hred1, hstate, task_state_char, map_stampEmailIf_append]
            · intro p hp
              rw [hred2] at hp
              rcases List.mem_append.1 hp with hp | hp
              · exact List.mem_append.2 (Or.inl hp)
              · exact List.mem_append.2 (Or.inr (hem p hp))
        · rcases ih st total (batch ++ [v]) hb' with ⟨S, hS, hstate, hem⟩
          refine ⟨S, hS, ?_, ?_⟩
          · simpa only [send_expiry_email_loop, hf, hq, if_true, hd] using hstate
          · simpa only [send_expiry_email_loop, hf, hq, if_true, hd] using hem
      · have hq' : qualifies now resendDays v = false := by
          revert hq; cases qualifies now resendDays v <;> simp
        simpa only [send_expiry_email_loop, hf, hq'] using ih st total batch hb

theorem loop_dry (env : MailEnv) (now resendDays batchSize : Int) (sel : List SSPV) :
    ∀ (us : List Nat) (st : List SSPV) (total : Int) (batch : List SSPV),
      (send_expiry_email_loop env now resendDays batchSize true sel us st total batch).state = st ∧
      (send_expiry_email_loop env now resendDays batchSize true sel us st total batch).emails
        = [] := by
  intro us
  induction us with
  | nil => intro st total batch; simp [send_expiry_email_loop]
  | cons u us ih =>
    intro st total batch
    rcases hf : find_recent_verification sel u with _ | v
    · simpa only [send_expiry_email_loop, hf] using ih st total batch
    · by_cases hq : qualifies now resendDays v = true
      · by_cases hd : (((batch ++ [v]).length : Int) == batchSize
            || decide (total < batchSize)) = true
        · have h1 := ih st (total - batchSize) []
          constructor
          · simpa only [send_expiry_email_loop, hf, hq, if_true, hd] using h1.1
          · simpa only [send_expiry_email_loop, hf, hq, if_true, hd] using h1.2
        · have h1 := ih st total (batch ++ [v])
          constructor
          · simpa only [send_expiry_email_loop, hf, hq, if_true, hd] using h1.1
          · simpa only [send_expiry_email_loop, hf, hq, if_true, hd] using h1.2
      · have hq' : qualifies now resendDays v = false := by
          revert hq; cases qualifies now resendDays v <;> simp
        simpa only [send_expiry_email_loop, hf, hq'] using ih st total batch

theorem loop_appended (env : MailEnv) (now resendDays batchSize : Int)
    (dryRun : Bool) (sel : List SSPV) :
    ∀ (us : List Nat) (st : List SSPV) (total : Int) (batch : List SSPV),
      (send_expiry_email_loop env now resendDays batchSize dryRun sel us st total batch).appended
        = (us.filterMap (find_recent_verification sel)).filter (qualifies now resendDays) := by
  intro us
  induction us with
  | nil => intro st total batch; simp [send_expiry_email_loop]
  | cons u us ih =>
    intro st total batch
    rcases hf : find_recent_verification sel u with _ | v
    · rw [show (u :: us).filterMap (find_recent_verification sel)
          = us.filterMap (find_recent_verification sel) by
        simp [List.filterMap_cons, hf]]
      simpa only [send_expiry_email_loop, hf] using ih st total batch
    · rw [show (u :: us).filterMap (find_recent_verification sel)
          = v :: us.filterMap (find_recent_verification sel) by
        simp [List.filterMap_cons, hf]]
      by_cases hq : qualifies now resendDays v = true
      · rw [List.filter_cons_of_pos hq]
        by_cases hd : (((batch ++ [v]).length : Int) == batchSize
            || decide (total < batchSize)) = true
        · cases dryRun with
          | true =>
            have h1 := ih st (total - batchSize) []
            simp only [send_expiry_email_loop, hf, hq, if_true, hd]
            simpa using h1
          | false =>
            have h1 := ih (send_verification_expiry_email env now st (batch ++ [v])).state
              (total - batchSize) []
            simp only [send_expiry_email_loop, hf, hq, if_true, hd]
            simpa using h1
        · have h1 := ih st total (batch ++ [v])
          simp only [send_expiry_email_loop, hf, hq, if_true, hd]
          simpa using h1
      · have hq' : qualifies now resendDays v = false := by
          revert hq; cases qualifies now resendDays v <;> simp
        rw [List.filter_cons_of_neg (by simp [hq'])]
        simpa only [send_expiry_email_loop, hf, hq'] using ih st total batch

theorem loop_batches_indep (now resendDays batchSize : Int) (sel : List SSPV) :
    ∀ (us : List Nat) (total : Int) (batch : List SSPV) (env1 env2 : MailEnv)
      (d1 d2 : Bool) (st1 st2 : List SSPV),
      (send_expiry_email_loop env1 now resendDays batchSize d1 sel us st1 total batch).batches
        = (send_expiry_email_loop env2 now resendDays batchSize d2 sel us st2 total
            batch).batches := by
  intro us
  induction us with
  | nil => intro total batch env1 env2 d1 d2 st1 st2; simp [send_expiry_email_loop]
  | cons u us ih =>
    intro total batch env1 env2 d1 d2 st1 st2
    rcases hf : find_recent_verification sel u with _ | v
    · simpa only [send_expiry_email_loop, hf] using ih total batch env1 env2 d1 d2 st1 st2
    · by_cases hq : qualifies now resendDays v = true
      · by_cases hd : (((batch ++ [v]).length : Int) == batchSize
            || decide (total < batchSize)) = true
        · have h1 := ih (total - batchSize) [] env1 env2 d1 d2
          cases d1 <;> cases d2 <;>
            simp only [send_expiry_email_loop, hf, hq, if_true, hd] <;> simp <;>
            exact h1 _ _
        · have h1 := ih total (batch ++ [v]) env1 env2 d1 d2
          cases d1 <;> cases d2 <;>
            simp only [send_expiry_email_loop, hf, hq, if_true, hd] <;> simp <;>
            exact h1 _ _
      · have hq' : qualifies now resendDays v = false := by
          revert hq; cases qualifies now resendDays v <;> simp
        simpa only [send_expiry_email_loop, hf, hq'] using ih total batch env1 env2 d1 d2 st1 st2

theorem loop_single (env : MailEnv) (now resendDays batchSize : Int) (sel : List SSPV)
    (hok : envAllOk env) (hB : 0 < batchSize) :
    ∀ (us : List Nat) (st : List SSPV) (total : Int), total < batchSize →
      (send_expiry_email_loop env now resendDays batchSize false sel us st total []).emails
        = (((us.filterMap (find_recent_verification sel)).filter
            (qualifies now resendDays)).map (·.pk)) := by
  intro us
  induction us with
  | nil => intro st total ht; simp [send_expiry_email_loop]
  | cons u us ih =>
    intro st total ht
    rcases hf : find_recent_verification sel u with _ | v
    · rw [show (u :: us).filterMap (find_recent_verification sel)
          = us.filterMap (find_recent_verification sel) by
        simp [List.filterMap_cons, hf]]
      simpa only [send_expiry_email_loop, hf] using ih st total ht
    · rw [show (u :: us).filterMap (find_recent_verification sel)
          = v :: us.filterMap (find_recent_verification sel) by
        simp [List.filterMap_cons, hf]]
      by_cases hq : qualifies now resendDays v = true
      · rw [List.filter_cons_of_pos hq, List.map_cons]
        have hd : ((([] ++ [v] : List SSPV).length : Int) == batchSize
            || decide (total < batchSize)) = true := by
          simp [ht]
        have htask := task_allexists env now ([] ++ [v]) st
          (by intro w hw; rcases List.mem_singleton.1 (by simpa using hw); exact (hok _).1)
        have hsm : env.smtpOk v.user_id = true := (hok v.user_id).2
        have hem : (send_verification_expiry_email env now st ([] ++ [v])).emails = [v.pk] := by
          rw [htask.2.1]
          simp [List.filter_cons, hsm]
        have h1 := ih (send_verification_expiry_email env now st ([] ++ [v])).state
          (total - batchSize) (by omega)
        simp only [send_expiry_email_loop, hf, hq, if_true, hd]
        simp only [List.nil_append] at hem h1 ⊢
        simp [hem, h1]
      · have hq' : qualifies now resendDays v = false := by
          revert hq; cases qualifies now resendDays v <;> simp
        rw [List.filter_cons_of_neg (by simp [hq'])]
        simpa only [send_expiry_email_loop, hf, hq'] using ih st total ht

/-! ### Dry-run logging of the user-id range of each batch -/

/-- A logged pair names the minimum and maximum user id of a batch. -/
def batchLogOk (l : Nat × Nat) (b : List SSPV) : Prop :=
  b ≠ [] ∧ (∃ w ∈ b, w.user_id = l.1) ∧ (∀ w ∈ b, l.1 ≤ w.user_id) ∧
    (∃ w ∈ b, w.user_id = l.2) ∧ (∀ w ∈ b, w.user_id ≤ l.2)

theorem getLastD_mem : ∀ (b : List SSPV), b ≠ [] → b.getLastD dummySSPV ∈ b
  | [], h => absurd rfl h
  | [x], _ => by simp
  | x :: y :: t, _ => by
    rw [List.getLastD_cons]
    exact List.mem_cons_of_mem x (getLastD_mem (y :: t) (by simp))

theorem le_getLastD : ∀ (b : List SSPV), (b.map (·.user_id)).Pairwise (· ≤ ·) →
    ∀ w ∈ b, w.user_id ≤ (b.getLastD dummySSPV).user_id
  | [], _, w, hw => absurd hw (by simp)
  | [x], _, w, hw => by
    rcases List.mem_singleton.1 hw with rfl
    simp
  | x :: y :: t, hp, w, hw => by
    rw [List.getLastD_cons]
    simp only [List.map_cons] at hp
    have hcons := List.pairwise_cons.1 hp
    rcases List.mem_cons.1 hw with rfl | hw2
    · have hmem := getLastD_mem (y :: t) (by simp)
      exact hcons.1 _ (List.mem_map.2 ⟨_, hmem, rfl⟩)
    · exact le_getLastD (y :: t) hcons.2 w hw2

theorem sorted_batch_log (b : List SSPV)
    (hp : (b.map (·.user_id)).Pairwise (· ≤ ·)) (hne : b ≠ []) :
    batchLogOk ((b.headD dummySSPV).user_id, (b.getLastD dummySSPV).user_id) b := by
  rcases b with _ | ⟨x, xs⟩
  · exact absurd rfl hne
  · refine ⟨by simp, ⟨x, by simp⟩, ?_, ⟨(x :: xs).getLastD dummySSPV,
      getLastD_mem _ (by simp), rfl⟩, le_getLastD _ hp⟩
    intro w hw
    simp only [List.map_cons] at hp
    have hcons := List.pairwise_cons.1 hp
    rcases List.mem_cons.1 hw with rfl | hw2
    · simp
    · simpa using hcons.1 _ (List.mem_map.2 ⟨w, hw2, rfl⟩)

theorem loop_dryLogs (env : MailEnv) (now resendDays batchSize : Int) (sel : List SSPV) :
    ∀ (us : List Nat) (st : List SSPV) (total : Int) (batch : List SSPV),
      (batch.map (·.user_id) ++ us).Pairwise (· ≤ ·) →
      List.Forall₂ batchLogOk
        (send_expiry_email_loop env now resendDays batchSize true sel us st total batch).dryLogs
        (send_expiry_email_loop env now resendDays batchSize true sel us st total
          batch).batches := by
  intro us
  induction us with
  | nil =>
    intro st total batch _
    simp only [send_expiry_email_loop]
    exact List.Forall₂.nil
  | cons u us ih =>
    intro st total batch hp
    have hptail : (batch.map (·.user_id) ++ us).Pairwise (· ≤ ·) :=
      hp.sublist (List.Sublist.append_left (List.sublist_cons_self u us) _)
    rcases hf : find_recent_verification sel u with _ | v
    · simpa only [send_expiry_email_loop, hf] using ih st total batch hptail
    · by_cases hq : qualifies now resendDays v = true
      · have huid : v.user_id = u := (find_recent_spec hf).2.1
        have hp' : ((batch ++ [v]).map (·.user_id) ++ us).Pairwise (· ≤ ·) := by
          rw [List.map_append, List.append_assoc]
          simpa [huid] using hp
        by_cases hd : (((batch ++ [v]).length : Int) == batchSize
            || decide (total < batchSize)) = true
        · have hbatchp : ((batch ++ [v]).map (·.user_id)).Pairwise (· ≤ ·) :=
            hp'.sublist (List.sublist_append_left _ _)
          have hlog := sorted_batch_log (batch ++ [v]) hbatchp (by simp)
          have h1 := ih st (total - batchSize) [] (by
            simpa using hptail.sublist (List.sublist_append_right _ _))
          simp only [send_expiry_email_loop, hf, hq, if_true, hd]
          exact List.Forall₂.cons hlog h1
        · have h1 := ih st total (batch ++ [v]) hp'
          simpa only [send_expiry_email_loop, hf, hq, if_true, hd] using h1
      · have hq' : qualifies now resendDays v = false := by
          revert hq; cases qualifies now resendDays v <;> simp
        simpa only [send_expiry_email_loop, hf, hq'] using ih st total batch hptail

/-! ### Characterizing the store updates of the backfill command -/

/-- Cumulative effect on one record of the `expiry_date` stamps recorded in
`S` (pk paired with the stamped value, later stamps listed first). -/
def expiryStampIf (S : List (Nat × Int)) (r : SSPV) : SSPV :=
  match S.lookup r.pk with
  | some t => { r with expiry_date := some t }
  | none => r

theorem expiryStampIf_keeps (S : List (Nat × Int)) (r : SSPV) :
    (expiryStampIf S r).pk = r.pk ∧ (expiryStampIf S r).user_id = r.user_id ∧
      (expiryStampIf S r).status = r.status ∧
      (expiryStampIf S r).expiry_email_date = r.expiry_email_date ∧
      (expiryStampIf S r).updated_at = r.updated_at := by
  unfold expiryStampIf
  rcases S.lookup r.pk with _ | t <;> exact ⟨rfl, rfl, rfl, rfl, rfl⟩

theorem expiryStampIf_eq_none {S : List (Nat × Int)} {r : SSPV}
    (h : List.lookup r.pk S = none) : expiryStampIf S r = r := by
  unfold expiryStampIf
  rw [show S.lookup r.pk = List.lookup r.pk S from rfl, h]

theorem expiryStampIf_eq_some {S : List (Nat × Int)} {r : SSPV} {t : Int}
    (h : List.lookup r.pk S = some t) :
    expiryStampIf S r = { r with expiry_date := some t } := by
  unfold expiryStampIf
  rw [show S.lookup r.pk = List.lookup r.pk S from rfl, h]

theorem map_expiryStampIf_nil (st : List SSPV) : st.map (expiryStampIf []) = st := by
  rw [show expiryStampIf [] = id from ?_, List.map_id]
  funext r
  exact expiryStampIf_eq_none rfl

theorem lookup_append (a : Nat) (l1 l2 : List (Nat × Int)) :
    List.lookup a (l1 ++ l2) =
      match List.lookup a l1 with
      | some b => some b
      | none => List.lookup a l2 := by
  induction l1 with
  | nil => simp [List.lookup]
  | cons e l1 ih =>
    rcases e with ⟨k, b⟩
    by_cases hk : a = k
    · simp [List.lookup, hk]
    · have hk' : (a == k) = false := by simp [hk]
      simp [List.lookup, hk', ih]

theorem lookup_some_mem {a : Nat} {c : Int} {S : List (Nat × Int)}
    (h : List.lookup a S = some c) : (a, c) ∈ S := by
  induction S with
  | nil => simp [List.lookup] at h
  | cons e S ih =>
    rcases e with ⟨k, b⟩
    by_cases hk : a = k
    · subst hk
      simp only [List.lookup, beq_self_eq_true] at h
      have hb : b = c := by simpa using h
      subst hb
      exact List.mem_cons_self _ _
    · have hk' : (a == k) = false := by simp [hk]
      simp only [List.lookup, hk'] at h
      exact List.mem_cons_of_mem _ (ih h)

theorem mem_lookup_isSome {a : Nat} {c : Int} {S : List (Nat × Int)}
    (h : (a, c) ∈ S) : ∃ b, List.lookup a S = some b := by
  induction S with
  | nil => simp at h
  | cons e S ih =>
    rcases e with ⟨k, b⟩
    by_cases hk : a = k
    · subst hk
      exact ⟨b, by simp [List.lookup]⟩
    · have hk' : (a == k) = false := by simp [hk]
      rcases List.mem_cons.1 h with heq | hmem
      · exfalso
        exact hk (by simpa using congrArg Prod.fst heq)
      · rcases ih hmem with ⟨b', hb'⟩
        exact ⟨b', by simp [List.lookup, hk', hb']⟩

theorem stampExpiryDate_eq_map (st : List SSPV) (p : Nat) (t : Int) :
    stampExpiryDate st p t = st.map (expiryStampIf [(p, t)]) := by
  unfold stampExpiryDate
  apply List.map_congr_left
  intro r _
  by_cases h : r.pk = p
  · have hl : List.lookup r.pk [(p, t)] = some t := by simp [List.lookup, h]
    rw [expiryStampIf_eq_some hl, if_pos (by simp [h])]
  · have h' : (r.pk == p) = false := by simp [h]
    have hl : List.lookup r.pk [(p, t)] = none := by simp [List.lookup, h']
    rw [expiryStampIf_eq_none hl, if_neg (by simp [h])]

theorem expiryStampIf_append (S T : List (Nat × Int)) (r : SSPV) :
    expiryStampIf T (expiryStampIf S r) = expiryStampIf (T ++ S) r := by
  have hpk : (expiryStampIf S r).pk = r.pk := (expiryStampIf_keeps S r).1
  rcases hT : List.lookup r.pk T with _ | t2
  · have h1 : expiryStampIf T (expiryStampIf S r) = expiryStampIf S r :=
      expiryStampIf_eq_none (by rw [hpk]; exact hT)
    have hTS : List.lookup r.pk (T ++ S) = List.lookup r.pk S := by
      rw [lookup_append, hT]
    rcases hS : List.lookup r.pk S with _ | t1
    · rw [h1, expiryStampIf_eq_none hS, expiryStampIf_eq_none (hTS.trans hS)]
    · rw [h1, expiryStampIf_eq_some hS, expiryStampIf_eq_some (hTS.trans hS)]
  · have h1 : expiryStampIf T (expiryStampIf S r) =
        { expiryStampIf S r with expiry_date := some t2 } :=
      expiryStampIf_eq_some (by rw [hpk]; exact hT)
    have hTS : List.lookup r.pk (T ++ S) = some t2 := by
      rw [lookup_append, hT]
    rw [h1, expiryStampIf_eq_some hTS]
    rcases hS : List.lookup r.pk S with _ | t1
    · rw [expiryStampIf_eq_none hS]
    · rw [expiryStampIf_eq_some hS]

theorem map_expiryStampIf_append (S T : List (Nat × Int)) (st : List SSPV) :
    (st.map (expiryStampIf S)).map (expiryStampIf T) = st.map (expiryStampIf (T ++ S)) := by
  rw [List.map_map]
  apply List.map_congr_left
  intro r _
  exact expiryStampIf_append S T r

/-! ### Behaviour of the backfill command's user loop -/

theorem pop_master (daysGoodFor batchSize : Int) (appr : List SSPV) :
    ∀ (us : List Nat) (st : List SSPV) (count : Nat),
      ∃ S : List (Nat × Int),
        (∀ pt ∈ S, ∃ w, latestRecOf appr w ∧ w.pk = pt.1 ∧ w.expiry_date = none ∧
          pt.2 = w.updated_at + daysGoodFor * dayLen) ∧
        (populate_expiry_date_loop daysGoodFor batchSize appr us st count).state
          = st.map (expiryStampIf S) ∧
        (∀ u ∈ us, ∀ v, find_recent_verification appr u = some v → v.expiry_date = none →
          ∃ t, (v.pk, t) ∈ S) := by
  intro us
  induction us with
  | nil =>
    intro st count
    exact ⟨[], by simp, by simp [populate_expiry_date_loop, map_expiryStampIf_nil], by simp⟩
  | cons u us ih =>
    intro st count
    rcases hf : find_recent_verification appr u with _ | v
    · rcases ih st count with ⟨S, hS, hstate, hcomp⟩
      refine ⟨S, hS, ?_, ?_⟩
      · simpa only [populate_expiry_date_loop, hf] using hstate
      · intro u' hu' v' hv' hvnone
        rcases List.mem_cons.1 hu' with rfl | hu'
        · rw [hf] at hv'; cases hv'
        · exact hcomp u' hu' v' hv' hvnone
    · rcases he : v.expiry_date with _ | e
      · have ht : stampExpiryDate st v.pk (v.updated_at + daysGoodFor * dayLen)
            = st.map (expiryStampIf [(v.pk, v.updated_at + daysGoodFor * dayLen)]) :=
          stampExpiryDate_eq_map st v.pk (v.updated_at + daysGoodFor * dayLen)
        by_cases hc : (((count + 1 : Nat) : Int) == batchSize) = true
        · rcases ih (stampExpiryDate st v.pk (v.updated_at + daysGoodFor * dayLen)) 0
            with ⟨S, hS, hstate, hcomp⟩
          refine ⟨S ++ [(v.pk, v.updated_at + daysGoodFor * dayLen)], ?_, ?_, ?_⟩
          · intro pt hpt
            rcases List.mem_append.1 hpt with hpt | hpt
            · exact hS pt hpt
            · rcases List.mem_singleton.1 hpt with rfl
              exact ⟨v, ⟨u, hf⟩, rfl, he, rfl⟩
          · simp only [populate_expiry_date_loop, hf, he, hc, if_true]
            rw [hstate, ht, map_expiryStampIf_append]
          · intro u' hu' v' hv' hvnone
            rcases List.mem_cons.1 hu' with rfl | hu'
            · rw [hf] at hv'
              injection hv' with hv2
              subst hv2
              exact ⟨v.updated_at + daysGoodFor * dayLen, by simp⟩
            · rcases hcomp u' hu' v' hv' hvnone with ⟨t, htm⟩
              exact ⟨t, List.mem_append.2 (Or.inl htm)⟩
        · rcases ih (stampExpiryDate st v.pk (v.updated_at + daysGoodFor * dayLen)) (count + 1)
            with ⟨S, hS, hstate, hcomp⟩
          refine ⟨S ++ [(v.pk, v.updated_at + daysGoodFor * dayLen)], ?_, ?_, ?_⟩
          · intro pt hpt
            rcases List.mem_append.1 hpt with hpt | hpt
            · exact hS pt hpt
            · rcases List.mem_singleton.1 hpt with rfl
              exact ⟨v, ⟨u, hf⟩, rfl, he, rfl⟩
          · have hc' : (((count + 1 : Nat) : Int) == batchSize) = false := by
              revert hc; cases (((count + 1 : Nat) : Int) == batchSize) <;> simp
            have hred : (populate_expiry_date_loop daysGoodFor batchSize appr (u :: us)
                st count).state
                = (populate_expiry_date_loop daysGoodFor batchSize appr us
                    (stampExpiryDate st v.pk (v.updated_at + daysGoodFor * dayLen))
                    (count + 1)).state := by
              simp only [populate_expiry_date_loop, hf, he, hc']
              simp
            rw [hred, hstate, ht, map_expiryStampIf_append]
          · intro u' hu' v' hv' hvnone
            rcases List.mem_cons.1 hu' with rfl | hu'
            · rw [hf] at hv'
              injection hv' with hv2
              subst hv2
              exact ⟨v.updated_at + daysGoodFor * dayLen, by simp⟩
            · rcases hcomp u' hu' v' hv' hvnone with ⟨t, htm⟩
              exact ⟨t, List.mem_append.2 (Or.inl htm)⟩
      · by_cases hc : (((count : Nat) : Int) == batchSize) = true
        · rcases ih st 0 with ⟨S, hS, hstate, hcomp⟩
          refine ⟨S, hS, ?_, ?_⟩
          · simpa only [populate_expiry_date_loop, hf, he, hc, if_true] using hstate
          · intro u' hu' v' hv' hvnone
            rcases List.mem_cons.1 hu' with rfl | hu'
            · rw [hf] at hv'
              injection hv' with hv2
              subst hv2
              rw [he] at hvnone; cases hvnone
            · exact hcomp u' hu' v' hv' hvnone
        · rcases ih st count with ⟨S, hS, hstate, hcomp⟩
          have hc' : (((count : Nat) : Int) == batchSize) = false := by
            revert hc; cases (((count : Nat) : Int) == batchSize) <;> simp
          refine ⟨S, hS, ?_, ?_⟩
          · simpa only [populate_expiry_date_loop, hf, he, hc', if_false] using hstate
          · intro u' hu' v' hv' hvnone
            rcases List.mem_cons.1 hu' with rfl | hu'
            · rw [hf] at hv'
              injection hv' with hv2
              subst hv2
              rw [he] at hvnone; cases hvnone
            · exact hcomp u' hu' v' hv' hvnone

theorem pop_loop_nostamp (daysGoodFor batchSize : Int) (appr : List SSPV) :
    ∀ (us : List Nat) (st : List SSPV) (count : Nat),
      (∀ u ∈ us, ∀ v, find_recent_verification appr u = some v → v.expiry_date ≠ none) →
      (populate_expiry_date_loop daysGoodFor batchSize appr us st count).state = st := by
  intro us
  induction us with
  | nil => intro st count _; simp [populate_expiry_date_loop]
  | cons u us ih =>
    intro st count hno
    have hno' : ∀ u' ∈ us, ∀ v, find_recent_verification appr u' = some v →
        v.expiry_date ≠ none := fun u' hu' => hno u' (List.mem_cons_of_mem _ hu')
    rcases hf : find_recent_verification appr u with _ | v
    · simpa only [populate_expiry_date_loop, hf] using ih st count hno'
    · rcases he : v.expiry_date with _ | e
      · exact absurd he (hno u (List.mem_cons_self _ _) v hf)
      · by_cases hc : (((count : Nat) : Int) == batchSize) = true
        · simpa only [populate_expiry_date_loop, hf, he, hc, if_true] using ih st 0 hno'
        · have hc' : (((count : Nat) : Int) == batchSize) = false := by
            revert hc; cases (((count : Nat) : Int) == batchSize) <;> simp
          simpa only [populate_expiry_date_loop, hf, he, hc', if_false] using ih st count hno'

theorem pop_updates (daysGoodFor batchSize : Int) (appr : List SSPV) :
    ∀ (us : List Nat) (st : List SSPV) (count : Nat),
      (populate_expiry_date_loop daysGoodFor batchSize appr us st count).updates
        = ((us.filterMap (find_recent_verification appr)).filter
            (fun v => v.expiry_date == none)).length := by
  intro us
  induction us with
  | nil => intro st count; simp [populate_expiry_date_loop]
  | cons u us ih =>
    intro st count
    rcases hf : find_recent_verification appr u with _ | v
    · rw [show (u :: us).filterMap (find_recent_verification appr)
          = us.filterMap (find_recent_verification appr) by
        simp [List.filterMap_cons, hf]]
      simpa only [populate_expiry_date_loop, hf] using ih st count
    · rw [show (u :: us).filterMap (find_recent_verification appr)
          = v :: us.filterMap (find_recent_verification appr) by
        simp [List.filterMap_cons, hf]]
      rcases he : v.expiry_date with _ | e
      · rw [List.filter_cons_of_pos (by simp [he])]
        by_cases hc : (((count + 1 : Nat) : Int) == batchSize) = true
        · have h1 := ih (stampExpiryDate st v.pk (v.updated_at + daysGoodFor * dayLen)) 0
          simp only [populate_expiry_date_loop, hf, he, hc, if_true]
          simp [h1]
        · have hc' : (((count + 1 : Nat) : Int) == batchSize) = false := by
            revert hc; cases (((count + 1 : Nat) : Int) == batchSize) <;> simp
          have h1 := ih (stampExpiryDate st v.pk (v.updated_at + daysGoodFor * dayLen))
            (count + 1)
          simp only [populate_expiry_date_loop, hf, he, hc']
          simp [h1]
      · rw [List.filter_cons_of_neg (by simp [he])]
        by_cases hc : (((count : Nat) : Int) == batchSize) = true
        · have h1 := ih st 0
          simp only [populate_expiry_date_loop, hf, he, hc, if_true]
          simp [h1]
        · have hc' : (((count : Nat) : Int) == batchSize) = false := by
            revert hc; cases (((count : Nat) : Int) == batchSize) <;> simp
          have h1 := ih st count
          simp only [populate_expiry_date_loop, hf, he, hc']
          simp [h1]

theorem pop_sleeps (daysGoodFor batchSize : Int) (appr : List SSPV)
    (hB : 0 < batchSize) :
    ∀ (us : List Nat) (st : List SSPV) (count : Nat), (count : Int) < batchSize →
      (populate_expiry_date_loop daysGoodFor batchSize appr us st count).sleeps
        = (count + (populate_expiry_date_loop daysGoodFor batchSize appr us st
            count).updates) / batchSize.toNat := by
  intro us
  induction us with
  | nil =>
    intro st count hcount
    simp only [populate_expiry_date_loop]
    rw [Nat.div_eq_of_lt (by omega)]
  | cons u us ih =>
    intro st count hcount
    rcases hf : find_recent_verification appr u with _ | v
    · simpa only [populate_expiry_date_loop, hf] using ih st count hcount
    · rcases he : v.expiry_date with _ | e
      · by_cases hc : (((count + 1 : Nat) : Int) == batchSize) = true
        · have hcB : count + 1 = batchSize.toNat := by
            have := beq_iff_eq.1 hc
            omega
          have h1 := ih (stampExpiryDate st v.pk (v.updated_at + daysGoodFor * dayLen)) 0
            (by omega)
          simp only [populate_expiry_date_loop, hf, he, hc, if_true]
          simp only [Nat.zero_add] at h1
          rw [h1]
          have harith : ∀ n : Nat, (count + (n + 1)) / batchSize.toNat
              = n / batchSize.toNat + 1 := by
            intro n
            rw [show count + (n + 1) = n + batchSize.toNat by omega,
              Nat.add_div_right _ (by omega)]
          rw [harith]
        · have hc' : (((count + 1 : Nat) : Int) == batchSize) = false := by
            revert hc; cases (((count + 1 : Nat) : Int) == batchSize) <;> simp
          have hlt : ((count + 1 : Nat) : Int) < batchSize := by
            have : ¬ ((count + 1 : Nat) : Int) = batchSize := by
              intro heq
              rw [show (((count + 1 : Nat) : Int) == batchSize) = true from beq_iff_eq.2 heq]
                at hc'
              cases hc'
            omega
          have h1 := ih (stampExpiryDate st v.pk (v.updated_at + daysGoodFor * dayLen))
            (count + 1) hlt
          simp only [populate_expiry_date_loop, hf, he, hc']
          simp only [Bool.false_eq_true, if_false]
          rw [h1]
          congr 1
          omega
      · by_cases hc : (((count : Nat) : Int) == batchSize) = true
        · exfalso
          have := beq_iff_eq.1 hc
          omega
        · have hc' : (((count : Nat) : Int) == batchSize) = false := by
            revert hc; cases (((count : Nat) : Int) == batchSize) <;> simp
          simpa only [populate_expiry_date_loop, hf, he, hc', Bool.false_eq_true, if_false]
            using ih st count hcount

/-! ### The backfill's stamps are invisible to its own selection -/

theorem approvedQS_map_stamp (S : List (Nat × Int)) (st : List SSPV) :
    approvedQS (st.map (expiryStampIf S)) = (approvedQS st).map (expiryStampIf S) := by
  unfold approvedQS
  rw [List.filter_map]
  congr 1
  apply List.filter_congr
  intro r _
  simp [Function.comp, (expiryStampIf_keeps S r).2.2.1]

theorem userIdsOf_map_stamp (S : List (Nat × Int)) (rs : List SSPV) :
    userIdsOf (rs.map (expiryStampIf S)) = userIdsOf rs := by
  unfold userIdsOf
  congr 1
  congr 1
  rw [List.map_map]
  apply List.map_congr_left
  intro r _
  simp [Function.comp, (expiryStampIf_keeps S r).2.1]

theorem latestAux_map_stamp (S : List (Nat × Int)) (r : SSPV) (l : List SSPV) :
    latestAux (expiryStampIf S r) (l.map (expiryStampIf S))
      = expiryStampIf S (latestAux r l) := by
  induction l generalizing r with
  | nil => simp [latestAux]
  | cons s ss ih =>
    have hr := (expiryStampIf_keeps S r).2.2.2.2
    have hs := (expiryStampIf_keeps S s).2.2.2.2
    by_cases h : r.updated_at < s.updated_at
    · simp only [List.map_cons, latestAux, hr, hs, if_pos h]
      exact ih s
    · simp only [List.map_cons, latestAux, hr, hs, if_neg h]
      exact ih r

theorem find_recent_map_stamp (S : List (Nat × Int)) (rs : List SSPV) (u : Nat) :
    find_recent_verification (rs.map (expiryStampIf S)) u
      = (find_recent_verification rs u).map (expiryStampIf S) := by
  unfold find_recent_verification
  rw [List.filter_map]
  have hpred : ∀ r ∈ rs, ((fun r : SSPV => r.user_id == u) ∘ expiryStampIf S) r
      = (fun r : SSPV => r.user_id == u) r := by
    intro r _
    simp [Function.comp, (expiryStampIf_keeps S r).2.1]
  rw [List.filter_congr hpred]
  rcases hf : rs.filter (fun r => r.user_id == u) with _ | ⟨r, ss⟩ <;> rw [hf]
  · simp
  · simp [latestAux_map_stamp]

/-! ### Handle-level corollaries -/

theorem handle_master (env : MailEnv) (now resendDays batchSize days : Int)
    (dryRun : Bool) (st : List SSPV) :
    ∃ S : List Nat,
      (∀ p ∈ S, ∃ w, latestRecOf (selectQS st now days) w ∧ w.pk = p) ∧
      (send_expiry_email_handle env now resendDays batchSize days dryRun st).state
        = st.map (stampEmailIf S now) ∧
      (∀ p ∈ (send_expiry_email_handle env now resendDays batchSize days dryRun st).emails,
        p ∈ S) := by
  by_cases h0 : ((((selectQS st now days).length : Nat) : Int) == 0) = true
  · refine ⟨[], by simp, ?_, ?_⟩
    · simp only [send_expiry_email_handle, h0, if_true]
      rw [map_stampEmailIf_nil]
    · simp only [send_expiry_email_handle, h0, if_true]
      simp
  · have h0' : ((((selectQS st now days).length : Nat) : Int) == 0) = false := by
      revert h0; cases (((selectQS st now days).length : Nat) : Int) == 0 <;> simp
    rcases loop_master env now resendDays batchSize dryRun (selectQS st now days)
      (userIdsOf (selectQS st now days)) st ((selectQS st now days).length : Int) []
      (by simp) with ⟨S, hS, hstate, hem⟩
    refine ⟨S, hS, ?_, ?_⟩
    · simpa only [send_expiry_email_handle, h0', Bool.false_eq_true, if_false] using hstate
    · simpa only [send_expiry_email_handle, h0', Bool.false_eq_true, if_false] using hem

theorem pop_handle_master (daysGoodFor batchSize : Int) (st : List SSPV) :
    ∃ S : List (Nat × Int),
      (∀ pt ∈ S, ∃ w, latestRecOf (approvedQS st) w ∧ w.pk = pt.1 ∧ w.expiry_date = none ∧
        pt.2 = w.updated_at + daysGoodFor * dayLen) ∧
      (populate_expiry_date_handle daysGoodFor batchSize st).state
        = st.map (expiryStampIf S) ∧
      (∀ u v, find_recent_verification (approvedQS st) u = some v → v.expiry_date = none →
        ∃ t, (v.pk, t) ∈ S) := by
  by_cases h0 : (((approvedQS st).length : Nat) == 0) = true
  · have happr : approvedQS st = [] := by
      have : (approvedQS st).length = 0 := by simpa using h0
      exact List.length_eq_zero.1 this
    refine ⟨[], by simp, ?_, ?_⟩
    · simp only [populate_expiry_date_handle, h0, if_true]
      rw [map_expiryStampIf_nil]
    · intro u v hf
      rw [happr] at hf
      simp [find_recent_verification, List.filter] at hf
  · have h0' : (((approvedQS st).length : Nat) == 0) = false := by
      revert h0; cases ((approvedQS st).length : Nat) == 0 <;> simp
    rcases pop_master daysGoodFor batchSize (approvedQS st) (userIdsOf (approvedQS st)) st 0
      with ⟨S, hS, hstate, hcomp⟩
    refine ⟨S, hS, ?_, ?_⟩
    · simpa only [populate_expiry_date_handle, h0', Bool.false_eq_true, if_false] using hstate
    · intro u v hf hnone
      have hspec := find_recent_spec hf
      exact hcomp u (mem_userIdsOf.2 ⟨v, hspec.1, hspec.2.1⟩) v hf hnone

/-! ### Claim C1 -/

/-- Concrete store for claim C1: user 7 has two approved records; the one
with the greater `updated_at` (pk 1) has an `expiry_date` far outside the
notification range, the older one (pk 2) is inside the range. -/
def c1A : SSPV := ⟨1, 7, "approved", some 864000, none, 10⟩

def c1B : SSPV := ⟨2, 7, "approved", some 60480000, none, 5⟩

def c1now : Int := 86400000

/-- Claim C1, counterexample: run the notification command on a store where
user 7's maximal-`updated_at` approved record (pk 1) lies outside the date
range while an older approved record (pk 2) lies inside it.  The run
modifies the older record, stamping its `expiry_email_date`, so it is not
true that only the record with the maximum `updated_at` among the user's
approved records is ever stamped. -/
theorem C1_counterexample :
    (c1A.status = "approved" ∧ c1B.status = "approved" ∧ c1A.user_id = c1B.user_id ∧
      c1B.updated_at < c1A.updated_at) ∧
    (send_expiry_email_handle allOkEnv c1now 15 1 365 false [c1A, c1B]).state
      = [c1A, { c1B with expiry_email_date := some c1now }] ∧
    { c1B with expiry_email_date := some c1now } ≠ c1B := by
  decide

/-- Claim C1 (amended): under distinct primary keys, any record modified by
a notification run is the maximal-`updated_at` record of its user among the
approved records whose `expiry_date` lies in the selection range (not among
all approved records), and any record modified by a backfill run is the
maximal-`updated_at` record of its user among all approved records and had
no `expiry_date` yet. -/
theorem C1_amended_only_latest_stamped (env : MailEnv)
    (now resendDays batchSize days daysGoodFor popBatch : Int) (dryRun : Bool)
    (st : List SSPV) (hnd : (st.map (·.pk)).Nodup) (r : SSPV) (hr : r ∈ st) :
    (∀ s ∈ (send_expiry_email_handle env now resendDays batchSize days dryRun st).state,
        s.pk = r.pk → s ≠ r → maxUpdatedAmong (selectQS st now days) r) ∧
    (∀ s ∈ (populate_expiry_date_handle daysGoodFor popBatch st).state,
        s.pk = r.pk → s ≠ r → maxUpdatedAmong (approvedQS st) r ∧ r.expiry_date = none) := by
  constructor
  · rcases handle_master env now resendDays batchSize days dryRun st with ⟨S, hS, hstate, _⟩
    intro s hs hspk hsne
    rw [hstate] at hs
    rcases List.mem_map.1 hs with ⟨x, hx, hxs⟩
    have hxpk : x.pk = r.pk := by
      rw [← hspk, ← hxs]
      exact (stampEmailIf_keeps S now x).1.symm
    have hxr : x = r := List.inj_on_of_nodup_map hnd hx hr hxpk
    subst hxr
    have hmem : x.pk ∈ S := by
      by_contra hnot
      exact hsne (by rw [← hxs, stampEmailIf_not_mem hnot])
    rcases hS x.pk hmem with ⟨w, ⟨u, hfw⟩, hwpk⟩
    have hspec := find_recent_spec hfw
    have hwst : w ∈ st := List.mem_of_mem_filter hspec.1
    have hwr : w = x := List.inj_on_of_nodup_map hnd hwst hx hwpk
    subst hwr
    refine ⟨hspec.1, ?_⟩
    intro w' hw' hw'u
    exact hspec.2.2 w' hw' (by rw [hw'u, hspec.2.1])
  · rcases pop_handle_master daysGoodFor popBatch st with ⟨S, hS, hstate, _⟩
    intro s hs hspk hsne
    rw [hstate] at hs
    rcases List.mem_map.1 hs with ⟨x, hx, hxs⟩
    have hxpk : x.pk = r.pk := by
      rw [← hspk, ← hxs]
      exact (expiryStampIf_keeps S x).1.symm
    have hxr : x = r := List.inj_on_of_nodup_map hnd hx hr hxpk
    subst hxr
    rcases hlk : List.lookup x.pk S with _ | c
    · exact absurd (by rw [← hxs, expiryStampIf_eq_none hlk]) hsne
    · rcases hS (x.pk, c) (lookup_some_mem hlk) with ⟨w, ⟨u, hfw⟩, hwpk, hwnone, _⟩
      have hspec := find_recent_spec hfw
      have hwst : w ∈ st := List.mem_of_mem_filter hspec.1
      have hwr : w = x := List.inj_on_of_nodup_map hnd hwst hx hwpk
      subst hwr
      refine ⟨⟨hspec.1, ?_⟩, hwnone⟩
      intro w' hw' hw'u
      exact hspec.2.2 w' hw' (by rw [hw'u, hspec.2.1])

/-- Claim C1 (amended), witness at the C1 store and record pk 1. -/
theorem C1_amended_witness :
    ((([c1A, c1B].map (·.pk)).Nodup) ∧ c1A ∈ [c1A, c1B]) ∧
    ((∀ s ∈ (send_expiry_email_handle allOkEnv c1now 15 1 365 false [c1A, c1B]).state,
        s.pk = c1A.pk → s ≠ c1A → maxUpdatedAmong (selectQS [c1A, c1B] c1now 365) c1A) ∧
      (∀ s ∈ (populate_expiry_date_handle 365 1000 [c1A, c1B]).state,
        s.pk = c1A.pk → s ≠ c1A → maxUpdatedAmong (approvedQS [c1A, c1B]) c1A ∧
          c1A.expiry_date = none)) :=
  ⟨⟨by decide, by decide⟩,
    C1_amended_only_latest_stamped allOkEnv c1now 15 1 365 365 1000 false [c1A, c1B]
      (by decide) c1A (by decide)⟩

/-! ### Claim C2 -/

/-- Concrete store for claim C2: two records in the selection range (so the
filtered count equals the batch size 2), of which only one qualifies for
notification (the other was emailed yesterday). -/
def c2a : SSPV := ⟨1, 1, "approved", some 60480000, none, 0⟩

def c2b : SSPV := ⟨2, 2, "approved", some 60480000, some 86313600, 0⟩

def c2now : Int := 86400000

/-- Claim C2: with `batch_size = 2`, the filtered count is `2 ≥ batch_size`
while only one record qualifies; the non-dry run terminates with the final
partial batch undispatched: no email is sent and no `expiry_email_date` is
stamped, because `total_verification` is never decremented below
`batch_size` without a dispatch. -/
theorem C2_partial_batch_never_dispatched :
    (((selectQS [c2a, c2b] c2now 365).length : Int) ≥ 2) ∧
    ((((userIdsOf (selectQS [c2a, c2b] c2now 365)).filterMap
        (find_recent_verification (selectQS [c2a, c2b] c2now 365))).filter
        (qualifies c2now 15)).length = 1) ∧
    (send_expiry_email_handle allOkEnv c2now 15 2 365 false [c2a, c2b]).emails = [] ∧
    (send_expiry_email_handle allOkEnv c2now 15 2 365 false [c2a, c2b]).state
      = [c2a, c2b] := by
  decide

/-! ### Claim C4 -/

/-- Concrete store for claim C4: the user-1 record was notified long before
`now - resend_days` and so re-qualifies; the user-2 record was notified
yesterday and does not qualify.  With `batch_size = 2` the re-qualifying
record's batch is never dispatched. -/
def c4a : SSPV := ⟨1, 1, "approved", some 60480000, some 8640000, 0⟩

def c4b : SSPV := ⟨2, 2, "approved", some 60480000, some 86313600, 0⟩

def c4now : Int := 86400000

/-- Claim C4, counterexample: a record notified more than `resend_days` ago
whose `expiry_date` is still inside the selection range re-qualifies (it is
appended), yet it is not re-notified: the run sends no email and leaves the
store unchanged, because its batch never reaches `batch_size` and
`total_verification` is not below `batch_size`. -/
theorem C4_counterexample :
    (approvedInRange c4now 365 c4a = true) ∧
    (c4a.expiry_email_date = some 8640000 ∧ (8640000 : Int) < c4now - 15 * dayLen) ∧
    (send_expiry_email_handle allOkEnv c4now 15 2 365 false [c4a, c4b]).appended = [c4a] ∧
    (send_expiry_email_handle allOkEnv c4now 15 2 365 false [c4a, c4b]).emails = [] ∧
    (send_expiry_email_handle allOkEnv c4now 15 2 365 false [c4a, c4b]).state
      = [c4a, c4b] := by
  decide

/-- Claim C4 (amended): a selected record is appended to a batch if and only
if its `expiry_email_date` is null or earlier than `now - resend_days`; and
such a record is actually emailed provided its batch is dispatched — in
particular whenever the filtered total is below `batch_size` in a non-dry
all-successful run. -/
theorem C4_amended_qualification (env : MailEnv) (now resendDays batchSize days : Int)
    (dryRun : Bool) (st : List SSPV) :
    (∀ v : SSPV, qualifies now resendDays v = true ↔
      (v.expiry_email_date = none ∨
        ∃ d, v.expiry_email_date = some d ∧ d < now - resendDays * dayLen)) ∧
    (send_expiry_email_handle env now resendDays batchSize days dryRun st).appended
      = ((userIdsOf (selectQS st now days)).filterMap
          (find_recent_verification (selectQS st now days))).filter
          (qualifies now resendDays) ∧
    (0 < batchSize → ((selectQS st now days).length : Int) < batchSize → dryRun = false →
      envAllOk env →
      (send_expiry_email_handle env now resendDays batchSize days dryRun st).emails
        = ((send_expiry_email_handle env now resendDays batchSize days dryRun
            st).appended).map (·.pk)) := by
  have happ : (send_expiry_email_handle env now resendDays batchSize days dryRun st).appended
      = ((userIdsOf (selectQS st now days)).filterMap
          (find_recent_verification (selectQS st now days))).filter
          (qualifies now resendDays) := by
    by_cases h0 : ((((selectQS st now days).length : Nat) : Int) == 0) = true
    · have hsel : selectQS st now days = [] :=
        List.length_eq_zero.1 (by exact_mod_cast by simpa using h0)
      simp only [send_expiry_email_handle, h0, if_true]
      rw [hsel]
      simp [userIdsOf, sortNat, dedupAdj]
    · have h0' : ((((selectQS st now days).length : Nat) : Int) == 0) = false := by
        revert h0; cases (((selectQS st now days).length : Nat) : Int) == 0 <;> simp
      simp only [send_expiry_email_handle, h0', Bool.false_eq_true, if_false]
      exact loop_appended env now resendDays batchSize dryRun (selectQS st now days) _ _ _ _
  refine ⟨?_, happ, ?_⟩
  · intro v
    unfold qualifies
    rcases v.expiry_email_date with _ | d <;> simp
  · intro hB htot hdry hok
    subst hdry
    rw [happ]
    by_cases h0 : ((((selectQS st now days).length : Nat) : Int) == 0) = true
    · have hsel : selectQS st now days = [] :=
        List.length_eq_zero.1 (by exact_mod_cast by simpa using h0)
      simp only [send_expiry_email_handle, h0, if_true]
      rw [hsel]
      simp [userIdsOf, sortNat, dedupAdj]
    · have h0' : ((((selectQS st now days).length : Nat) : Int) == 0) = false := by
        revert h0; cases (((selectQS st now days).length : Nat) : Int) == 0 <;> simp
      simp only [send_expiry_email_handle, h0', Bool.false_eq_true, if_false]
      exact loop_single env now resendDays batchSize (selectQS st now days) hok hB
        (userIdsOf (selectQS st now days)) st _ htot

/-- Concrete store for the C4 witness: a single re-qualifying record, with
the default `batch_size` 1000 exceeding the filtered total, so its batch is
dispatched and the record is re-notified. -/
def c4w : SSPV := ⟨1, 1, "approved", some 60480000, some 8640000, 0⟩

/-- Claim C4 (amended), witness: at the one-record store the dispatch
condition holds and the re-qualifying record is emailed. -/
theorem C4_amended_witness :
    (send_expiry_email_handle allOkEnv c4now 15 1000 365 false [c4w]).emails
      = ((send_expiry_email_handle allOkEnv c4now 15 1000 365 false [c4w]).appended).map
          (·.pk) :=
  (C4_amended_qualification allOkEnv c4now 15 1000 365 false [c4w]).2.2 (by decide)
    (by decide) rfl (fun u => ⟨rfl, rfl⟩)

/-! ### Claim C6 -/

/-- Claim C6: an approved record whose `expiry_date` is outside the open
interval `(now - days_range, now)` — endpoints included — survives a
notification run unchanged: no email is sent for it and, in particular, its
`expiry_email_date` stays what it was (null stays null). -/
theorem C6_out_of_range_untouched (env : MailEnv) (now resendDays batchSize days : Int)
    (dryRun : Bool) (st : List SSPV) (hnd : (st.map (·.pk)).Nodup)
    (r : SSPV) (hr : r ∈ st) (hstat : r.status = "approved")
    (hout : ∀ d, r.expiry_date = some d → d ≤ now - days * dayLen ∨ now ≤ d) :
    r ∈ (send_expiry_email_handle env now resendDays batchSize days dryRun st).state ∧
    (∀ s ∈ (send_expiry_email_handle env now resendDays batchSize days dryRun st).state,
      s.pk = r.pk → s = r) ∧
    r.pk ∉ (send_expiry_email_handle env now resendDays batchSize days dryRun st).emails := by
  have hfalse : approvedInRange now days r = false := by
    unfold approvedInRange
    rcases he : r.expiry_date with _ | d
    · simp
    · rcases hout d he with h | h
      · have : ¬ (now - days * dayLen < d) := by omega
        simp [this]
      · have : ¬ (d < now) := by omega
        simp [this]
  have hnotsel : r ∉ selectQS st now days := by
    intro hmem
    have := (List.mem_filter.1 hmem).2
    rw [hfalse] at this
    cases this
  rcases handle_master env now resendDays batchSize days dryRun st with ⟨S, hS, hstate, hem⟩
  have hpkS : r.pk ∉ S := by
    intro hmem
    rcases hS r.pk hmem with ⟨w, ⟨u, hfw⟩, hwpk⟩
    have hspec := find_recent_spec hfw
    have hwst : w ∈ st := List.mem_of_mem_filter hspec.1
    have hwr : w = r := List.inj_on_of_nodup_map hnd hwst hr hwpk
    subst hwr
    exact hnotsel hspec.1
  have hfix : stampEmailIf S now r = r := stampEmailIf_not_mem hpkS
  refine ⟨?_, ?_, ?_⟩
  · rw [hstate]
    exact List.mem_map.2 ⟨r, hr, hfix⟩
  · intro s hs hspk
    rw [hstate] at hs
    rcases List.mem_map.1 hs with ⟨x, hx, hxs⟩
    have hxpk : x.pk = r.pk := by
      rw [← hspk, ← hxs]
      exact (stampEmailIf_keeps S now x).1.symm
    have hxr : x = r := List.inj_on_of_nodup_map hnd hx hr hxpk
    subst hxr
    rw [← hxs, hfix]
  · intro hmem
    exact hpkS (hem r.pk hmem)

/-- Concrete store for the C6 witness: one approved record whose
`expiry_date` equals `now`, i.e. sits exactly on the excluded endpoint. -/
def c6r : SSPV := ⟨1, 1, "approved", some 86400000, none, 0⟩

def c6now : Int := 86400000

/-- Claim C6, witness at the endpoint record. -/
theorem C6_witness :
    (([c6r].map (·.pk)).Nodup ∧ c6r ∈ [c6r] ∧ c6r.status = "approved") ∧
    (c6r ∈ (send_expiry_email_handle allOkEnv c6now 15 1000 365 false [c6r]).state ∧
      (∀ s ∈ (send_expiry_email_handle allOkEnv c6now 15 1000 365 false [c6r]).state,
        s.pk = c6r.pk → s = c6r) ∧
      c6r.pk ∉ (send_expiry_email_handle allOkEnv c6now 15 1000 365 false [c6r]).emails) :=
  ⟨⟨by decide, by decide, rfl⟩,
    C6_out_of_range_untouched allOkEnv c6now 15 1000 365 false [c6r] (by decide) c6r
      (by decide) rfl
      (by
        intro d hd
        have hd' : some (86400000 : Int) = some d := hd
        injection hd' with h2
        rw [← h2]
        decide)⟩

/-! ### Claim C7 -/

/-- Concrete store for claim C7: user 3 has two approved records inside the
selection range, both never notified; only the more recently updated one
(pk 2) is selected. -/
def c7old : SSPV := ⟨1, 3, "approved", some 60480000, none, 5⟩

def c7new : SSPV := ⟨2, 3, "approved", some 61344000, none, 9⟩

def c7now : Int := 86400000

/-- Claim C7, counterexample: the record pk 1 has `expiry_date` inside the
selection range and null `expiry_email_date`, yet a non-dry run (with every
send succeeding) sends no email for it and leaves its `expiry_email_date`
null, because only the user's most recently updated selected record is
considered. -/
theorem C7_counterexample :
    (approvedInRange c7now 365 c7old = true) ∧ c7old.expiry_email_date = none ∧
    (send_expiry_email_handle allOkEnv c7now 15 1 365 false [c7old, c7new]).state
      = [c7old, { c7new with expiry_email_date := some c7now }] ∧
    c7old.pk ∉ (send_expiry_email_handle allOkEnv c7now 15 1 365 false
      [c7old, c7new]).emails := by
  decide

theorem handle_single (env : MailEnv) (now resendDays batchSize days : Int)
    (st : List SSPV) (hok : envAllOk env) (hB : 0 < batchSize)
    (htot : ((selectQS st now days).length : Int) < batchSize) :
    (send_expiry_email_handle env now resendDays batchSize days false st).emails
      = (((userIdsOf (selectQS st now days)).filterMap
          (find_recent_verification (selectQS st now days))).filter
          (qualifies now resendDays)).map (·.pk) := by
  by_cases h0 : ((((selectQS st now days).length : Nat) : Int) == 0) = true
  · have hsel : selectQS st now days = [] :=
      List.length_eq_zero.1 (by exact_mod_cast by simpa using h0)
    simp only [send_expiry_email_handle, h0, if_true]
    rw [hsel]
    simp [userIdsOf, sortNat, dedupAdj]
  · have h0' : ((((selectQS st now days).length : Nat) : Int) == 0) = false := by
      revert h0; cases (((selectQS st now days).length : Nat) : Int) == 0 <;> simp
    simp only [send_expiry_email_handle, h0', Bool.false_eq_true, if_false]
    exact loop_single env now resendDays batchSize (selectQS st now days) hok hB
      (userIdsOf (selectQS st now days)) st _ htot

/-- Claim C7 (amended): in a non-dry run whose filtered total is below
`batch_size` (so every batch is dispatched immediately) with every user
lookup and send succeeding, the most recently updated selected record of a
user, when its `expiry_email_date` is null, is emailed exactly once and is
stamped with the send time `now` (trivially the same calendar day as `now`);
records that are not their user's most recent selected record are not
covered, as the counterexample shows. -/
theorem C7_amended_latest_emailed_once (env : MailEnv)
    (now resendDays batchSize days : Int) (st : List SSPV)
    (hnd : (st.map (·.pk)).Nodup) (hB : 0 < batchSize)
    (htot : ((selectQS st now days).length : Int) < batchSize) (hok : envAllOk env)
    (u : Nat) (v : SSPV)
    (hfv : find_recent_verification (selectQS st now days) u = some v)
    (hvnull : v.expiry_email_date = none) :
    List.count v.pk
      (send_expiry_email_handle env now resendDays batchSize days false st).emails = 1 ∧
    ({ v with expiry_email_date := some now } : SSPV)
      ∈ (send_expiry_email_handle env now resendDays batchSize days false st).state ∧
    (∀ s ∈ (send_expiry_email_handle env now resendDays batchSize days false st).state,
      s.pk = v.pk → s = { v with expiry_email_date := some now }) ∧
    (∀ t, ({ v with expiry_email_date := some now } : SSPV).expiry_email_date = some t →
      calendarDay t = calendarDay now) := by
  have hspec := find_recent_spec hfv
  have hvsel : v ∈ selectQS st now days := hspec.1
  have hvst : v ∈ st := List.mem_of_mem_filter hvsel
  have hselnd : ((selectQS st now days).map (·.pk)).Nodup :=
    List.Nodup.sublist ((List.filter_sublist st).map _) hnd
  have hu : u ∈ userIdsOf (selectQS st now days) :=
    mem_userIdsOf.2 ⟨v, hvsel, hspec.2.1⟩
  have hLnd : ((userIdsOf (selectQS st now days)).filterMap
      (find_recent_verification (selectQS st now days))).Pairwise
      (fun a b => a.pk ≠ b.pk) := by
    rw [List.pairwise_filterMap]
    refine (nodup_userIdsOf (selectQS st now days)).imp ?_
    intro a b hab x hx y hy
    have hxa : find_recent_verification (selectQS st now days) a = some x := by simpa using hx
    have hyb : find_recent_verification (selectQS st now days) b = some y := by simpa using hy
    have hsx := find_recent_spec hxa
    have hsy := find_recent_spec hyb
    intro hpk
    exact hab (by rw [← hsx.2.1, ← hsy.2.1,
      List.inj_on_of_nodup_map hselnd hsx.1 hsy.1 hpk])
  have hq : qualifies now resendDays v = true := by
    unfold qualifies
    rw [hvnull]
  have hvL : v ∈ (userIdsOf (selectQS st now days)).filterMap
      (find_recent_verification (selectQS st now days)) :=
    List.mem_filterMap.2 ⟨u, hu, hfv⟩
  have hvLq : v ∈ ((userIdsOf (selectQS st now days)).filterMap
      (find_recent_verification (selectQS st now days))).filter
      (qualifies now resendDays) := List.mem_filter.2 ⟨hvL, hq⟩
  have hLqp : (((userIdsOf (selectQS st now days)).filterMap
      (find_recent_verification (selectQS st now days))).filter
      (qualifies now resendDays)).Pairwise (fun a b => a.pk ≠ b.pk) :=
    List.Pairwise.sublist (List.filter_sublist _) hLnd
  have hqnd : ((((userIdsOf (selectQS st now days)).filterMap
      (find_recent_verification (selectQS st now days))).filter
      (qualifies now resendDays)).map (·.pk)).Nodup :=
    List.pairwise_map.2 hLqp
  have hemails := handle_single env now resendDays batchSize days st hok hB htot
  have hvpkem : v.pk ∈
      (send_expiry_email_handle env now resendDays batchSize days false st).emails := by
    rw [hemails]
    exact List.mem_map.2 ⟨v, hvLq, rfl⟩
  rcases handle_master env now resendDays batchSize days false st with ⟨S, hS, hstate, hem⟩
  have hvS : v.pk ∈ S := hem _ hvpkem
  have hstamp : stampEmailIf S now v = { v with expiry_email_date := some now } :=
    stampEmailIf_mem hvS
  refine ⟨?_, ?_, ?_, ?_⟩
  · rw [hemails]
    exact List.count_eq_one_of_mem hqnd (List.mem_map.2 ⟨v, hvLq, rfl⟩)
  · rw [hstate]
    exact List.mem_map.2 ⟨v, hvst, hstamp⟩
  · intro s hs hspk
    rw [hstate] at hs
    rcases List.mem_map.1 hs with ⟨x, hx, hxs⟩
    have hxpk : x.pk = v.pk := by
      rw [← hspk, ← hxs]
      exact (stampEmailIf_keeps S now x).1.symm
    have hxv : x = v := List.inj_on_of_nodup_map hnd hx hvst hxpk
    subst hxv
    rw [← hxs, hstamp]
  · intro t ht
    have ht' : some now = some t := ht
    injection ht' with h2
    rw [← h2]

/-- Concrete store for the C7 witness: one never-notified record in range. -/
def c7w : SSPV := ⟨1, 1, "approved", some 60480000, none, 0⟩

/-- Claim C7 (amended), witness: at the one-record store the record is the
most recent selected record of its user, is emailed exactly once, and is
stamped with the send time. -/
theorem C7_amended_witness :
    (find_recent_verification (selectQS [c7w] c7now 365) 1 = some c7w ∧
      c7w.expiry_email_date = none ∧ (0 : Int) < 1000) ∧
    (List.count c7w.pk
      (send_expiry_email_handle allOkEnv c7now 15 1000 365 false [c7w]).emails = 1 ∧
    ({ c7w with expiry_email_date := some c7now } : SSPV)
      ∈ (send_expiry_email_handle allOkEnv c7now 15 1000 365 false [c7w]).state ∧
    (∀ s ∈ (send_expiry_email_handle allOkEnv c7now 15 1000 365 false [c7w]).state,
      s.pk = c7w.pk → s = { c7w with expiry_email_date := some c7now }) ∧
    (∀ t, ({ c7w with expiry_email_date := some c7now } : SSPV).expiry_email_date = some t →
      calendarDay t = calendarDay c7now)) :=
  ⟨⟨by decide, rfl, by decide⟩,
    C7_amended_latest_emailed_once allOkEnv c7now 15 1000 365 [c7w] (by decide) (by decide)
      (by decide) (fun u => ⟨rfl, rfl⟩) 1 c7w (by decide) rfl⟩

/-! ### Claim C8 -/

/-- Claim C8: with `--dry-run` the command makes the same selection and
forms the same batches as a non-dry run (with any mail environment), sends
zero emails, leaves the store untouched, and for each candidate batch logs
a pair which is the minimum and maximum user id of that batch. -/
theorem C8_dry_run (env env2 : MailEnv) (now resendDays batchSize days : Int)
    (st : List SSPV) :
    (send_expiry_email_handle env now resendDays batchSize days true st).emails = [] ∧
    (send_expiry_email_handle env now resendDays batchSize days true st).state = st ∧
    (send_expiry_email_handle env now resendDays batchSize days true st).batches
      = (send_expiry_email_handle env2 now resendDays batchSize days false st).batches ∧
    (send_expiry_email_handle env now resendDays batchSize days true st).appended
      = (send_expiry_email_handle env2 now resendDays batchSize days false st).appended ∧
    List.Forall₂ batchLogOk
      (send_expiry_email_handle env now resendDays batchSize days true st).dryLogs
      (send_expiry_email_handle env now resendDays batchSize days true st).batches := by
  by_cases h0 : ((((selectQS st now days).length : Nat) : Int) == 0) = true
  · refine ⟨?_, ?_, ?_, ?_, ?_⟩ <;>
      simp only [send_expiry_email_handle, h0, if_true]
    all_goals
      first
        | rfl
        | exact List.Forall₂.nil
  · have h0' : ((((selectQS st now days).length : Nat) : Int) == 0) = false := by
      revert h0; cases (((selectQS st now days).length : Nat) : Int) == 0 <;> simp
    have hdry := loop_dry env now resendDays batchSize (selectQS st now days)
      (userIdsOf (selectQS st now days)) st ((selectQS st now days).length : Int) []
    refine ⟨?_, ?_, ?_, ?_, ?_⟩
    · simpa only [send_expiry_email_handle, h0', Bool.false_eq_true, if_false] using hdry.2
    · simpa only [send_expiry_email_handle, h0', Bool.false_eq_true, if_false] using hdry.1
    · simp only [send_expiry_email_handle, h0', Bool.false_eq_true, if_false]
      exact loop_batches_indep now resendDays batchSize (selectQS st now days)
        (userIdsOf (selectQS st now days)) ((selectQS st now days).length : Int) []
        env env2 true false st st
    · simp only [send_expiry_email_handle, h0', Bool.false_eq_true, if_false]
      rw [loop_appended, loop_appended]
    · simp only [send_expiry_email_handle, h0', Bool.false_eq_true, if_false]
      exact loop_dryLogs env now resendDays batchSize (selectQS st now days)
        (userIdsOf (selectQS st now days)) st ((selectQS st now days).length : Int) []
        (by simpa using pairwise_le_userIdsOf (selectQS st now days))

/-! ### Claim C9 -/

/-- Concrete store for claim C9: one approved record whose `expiry_date` is
already set. -/
def c9r : SSPV := ⟨1, 1, "approved", some 60480000, none, 0⟩

/-- Claim C9, counterexample: with `batch_size = 1` the backfill handles one
record (one distinct user is scanned) but sleeps zero times, because the
record needed no update and the counter driving the sleep counts updated
rows, not handled rows.  The claim's "a sleep occurs exactly after every
`batch_size` records handled" would require one sleep here. -/
theorem C9_counterexample :
    (userIdsOf (approvedQS [c9r])).length = 1 ∧
    (populate_expiry_date_handle 365 1 [c9r]).updates = 0 ∧
    (populate_expiry_date_handle 365 1 [c9r]).sleeps = 0 := by
  decide

/-- Claim C9 (amended): the backfill sleeps after every `batch_size`
records it actually updates (stamps with an `expiry_date`), not after every
`batch_size` records it scans: the number of sleeps in a run is the number
of updated records divided by `batch_size`, and the number of updated
records is the number of distinct users whose most recent approved record
had no `expiry_date`. -/
theorem C9_amended_sleeps (daysGoodFor batchSize : Int) (st : List SSPV)
    (hB : 0 < batchSize) :
    (populate_expiry_date_handle daysGoodFor batchSize st).sleeps
      = (populate_expiry_date_handle daysGoodFor batchSize st).updates / batchSize.toNat ∧
    (populate_expiry_date_handle daysGoodFor batchSize st).updates
      = (((userIdsOf (approvedQS st)).filterMap
          (find_recent_verification (approvedQS st))).filter
          (fun v => v.expiry_date == none)).length := by
  by_cases h0 : (((approvedQS st).length : Nat) == 0) = true
  · have happr : approvedQS st = [] :=
      List.length_eq_zero.1 (by simpa using h0)
    constructor
    · simp [populate_expiry_date_handle, h0]
    · simp only [populate_expiry_date_handle, h0, if_true]
      rw [happr]
      simp [userIdsOf, sortNat, dedupAdj]
  · have h0' : (((approvedQS st).length : Nat) == 0) = false := by
      revert h0; cases ((approvedQS st).length : Nat) == 0 <;> simp
    constructor
    · have hs := pop_sleeps daysGoodFor batchSize (approvedQS st) hB
        (userIdsOf (approvedQS st)) st 0 (by simpa using hB)
      simp only [send_expiry_email_handle, populate_expiry_date_handle, h0',
        Bool.false_eq_true, if_false]
      simpa using hs
    · have hu := pop_updates daysGoodFor batchSize (approvedQS st)
        (userIdsOf (approvedQS st)) st 0
      simpa only [populate_expiry_date_handle, h0', Bool.false_eq_true, if_false] using hu

/-- Concrete store for the C9 witness: two users with unset expiry dates. -/
def c9w1 : SSPV := ⟨1, 1, "approved", none, none, 0⟩

def c9w2 : SSPV := ⟨2, 2, "approved", none, none, 0⟩

/-- Claim C9 (amended), witness: with `batch_size = 1` and two updated
records the run sleeps twice. -/
theorem C9_amended_witness :
    ((0 : Int) < 1) ∧
    ((populate_expiry_date_handle 365 1 [c9w1, c9w2]).sleeps
      = (populate_expiry_date_handle 365 1 [c9w1, c9w2]).updates / (1 : Int).toNat ∧
    (populate_expiry_date_handle 365 1 [c9w1, c9w2]).updates
      = (((userIdsOf (approvedQS [c9w1, c9w2])).filterMap
          (find_recent_verification (approvedQS [c9w1, c9w2]))).filter
          (fun v => v.expiry_date == none)).length) :=
  ⟨by decide, C9_amended_sleeps 365 1 [c9w1, c9w2] (by decide)⟩

/-! ### Claim C3 -/

/-- Claim C3: under distinct primary keys, the backfill sets
`expiry_date := updated_at + DAYS_GOOD_FOR days` on each distinct user's
most recently updated approved record when it is unset; it never changes a
record that already has an `expiry_date`; and it is idempotent — a second
run returns the store of the first run unchanged. -/
theorem C3_backfill_sets_and_idempotent (daysGoodFor batchSize : Int) (st : List SSPV)
    (hnd : (st.map (·.pk)).Nodup) :
    (∀ u v, find_recent_verification (approvedQS st) u = some v → v.expiry_date = none →
      ∃ s ∈ (populate_expiry_date_handle daysGoodFor batchSize st).state,
        s.pk = v.pk ∧ s.expiry_date = some (v.updated_at + daysGoodFor * dayLen)) ∧
    (∀ r ∈ st, r.expiry_date ≠ none →
      ∀ s ∈ (populate_expiry_date_handle daysGoodFor batchSize st).state,
        s.pk = r.pk → s = r) ∧
    (populate_expiry_date_handle daysGoodFor batchSize
        (populate_expiry_date_handle daysGoodFor batchSize st).state).state
      = (populate_expiry_date_handle daysGoodFor batchSize st).state := by
  rcases pop_handle_master daysGoodFor batchSize st with ⟨S, hS, hstate, hcomp⟩
  refine ⟨?_, ?_, ?_⟩
  · intro u v hf hnone
    have hspec := find_recent_spec hf
    have hvst : v ∈ st := List.mem_of_mem_filter hspec.1
    rcases hcomp u v hf hnone with ⟨t, htS⟩
    rcases mem_lookup_isSome htS with ⟨c, hlk⟩
    rcases hS (v.pk, c) (lookup_some_mem hlk) with ⟨w, ⟨u', hfw⟩, hwpk, hwnone, hval⟩
    have hspecw := find_recent_spec hfw
    have hwst : w ∈ st := List.mem_of_mem_filter hspecw.1
    have hwv : w = v := List.inj_on_of_nodup_map hnd hwst hvst hwpk
    subst hwv
    refine ⟨expiryStampIf S w, ?_, (expiryStampIf_keeps S w).1, ?_⟩
    · rw [hstate]
      exact List.mem_map.2 ⟨w, hvst, rfl⟩
    · rw [expiryStampIf_eq_some hlk]
      exact congrArg some hval
  · intro r hr hrsome s hs hspk
    rw [hstate] at hs
    rcases List.mem_map.1 hs with ⟨x, hx, hxs⟩
    have hxpk : x.pk = r.pk := by
      rw [← hspk, ← hxs]
      exact (expiryStampIf_keeps S x).1.symm
    have hxr : x = r := List.inj_on_of_nodup_map hnd hx hr hxpk
    subst hxr
    rcases hlk : List.lookup x.pk S with _ | c
    · rw [← hxs, expiryStampIf_eq_none hlk]
    · exfalso
      rcases hS (x.pk, c) (lookup_some_mem hlk) with ⟨w, ⟨u', hfw⟩, hwpk, hwnone, _⟩
      have hspecw := find_recent_spec hfw
      have hwst : w ∈ st := List.mem_of_mem_filter hspecw.1
      have hwx : w = x := List.inj_on_of_nodup_map hnd hwst hx hwpk
      subst hwx
      exact hrsome hwnone
  · rw [hstate]
    by_cases h0 : (((approvedQS (st.map (expiryStampIf S))).length : Nat) == 0) = true
    · simp only [populate_expiry_date_handle, h0, if_true]
    · have h0' : (((approvedQS (st.map (expiryStampIf S))).length : Nat) == 0) = false := by
        revert h0
        cases ((approvedQS (st.map (expiryStampIf S))).length : Nat) == 0 <;> simp
      have hnostamp := pop_loop_nostamp daysGoodFor batchSize
        (approvedQS (st.map (expiryStampIf S)))
        (userIdsOf (approvedQS (st.map (expiryStampIf S)))) (st.map (expiryStampIf S)) 0 ?_
      · simpa only [populate_expiry_date_handle, h0', Bool.false_eq_true, if_false]
          using hnostamp
      · intro u hu v1 hf1 hv1none
        rw [approvedQS_map_stamp, find_recent_map_stamp] at hf1
        rcases hfo : find_recent_verification (approvedQS st) u with _ | v0
        · rw [hfo] at hf1
          cases hf1
        · rw [hfo] at hf1
          have hv1 : v1 = expiryStampIf S v0 := by simpa using hf1.symm
          subst hv1
          rcases he0 : v0.expiry_date with _ | e
          · rcases hcomp u v0 hfo he0 with ⟨t, htS⟩
            rcases mem_lookup_isSome htS with ⟨c, hlk⟩
            rw [expiryStampIf_eq_some hlk] at hv1none
            cases hv1none
          · rcases hlk : List.lookup v0.pk S with _ | c
            · rw [expiryStampIf_eq_none hlk] at hv1none
              rw [he0] at hv1none
              cases hv1none
            · rw [expiryStampIf_eq_some hlk] at hv1none
              cases hv1none

/-- Concrete store for the C3 witness: user 1's record lacks an
`expiry_date`, user 2's record already has one. -/
def c3a : SSPV := ⟨1, 1, "approved", none, none, 50⟩

def c3b : SSPV := ⟨2, 2, "approved", some 5, none, 0⟩

/-- Claim C3, witness at a two-user store. -/
theorem C3_backfill_witness :
    (([c3a, c3b].map (·.pk)).Nodup ∧
    (∀ u v, find_recent_verification (approvedQS [c3a, c3b]) u = some v →
      v.expiry_date = none →
      ∃ s ∈ (populate_expiry_date_handle 365 1000 [c3a, c3b]).state,
        s.pk = v.pk ∧ s.expiry_date = some (v.updated_at + 365 * dayLen)) ∧
    (∀ r ∈ [c3a, c3b], r.expiry_date ≠ none →
      ∀ s ∈ (populate_expiry_date_handle 365 1000 [c3a, c3b]).state, s.pk = r.pk → s = r) ∧
    (populate_expiry_date_handle 365 1000
        (populate_expiry_date_handle 365 1000 [c3a, c3b]).state).state
      = (populate_expiry_date_handle 365 1000 [c3a, c3b]).state) :=
  ⟨by decide, C3_backfill_sets_and_idempotent 365 1000 [c3a, c3b] (by decide)⟩

/-! ### Claim C5 -/

/-- Claim C5: when the send for one record of a batch fails with an
`SMTPException` (and every user lookup succeeds), the task catches it: no
exception propagates, a warning naming the user is logged, that record is
not emailed and keeps its store row unchanged (so it stays eligible), and
the remaining records of the batch are still processed — every later record
whose send succeeds is emailed. -/
theorem C5_smtp_failure_tolerated (env : MailEnv) (now : Int) (st : List SSPV)
    (pre post : List SSPV) (v : SSPV)
    (hall : ∀ w ∈ pre ++ v :: post, env.userExists w.user_id = true)
    (hfail : env.smtpOk v.user_id = false)
    (hnd : ((pre ++ v :: post).map (·.pk)).Nodup) :
    (send_verification_expiry_email env now st (pre ++ v :: post)).raised = false ∧
    v.user_id ∈ (send_verification_expiry_email env now st (pre ++ v :: post)).warnings ∧
    v.pk ∉ (send_verification_expiry_email env now st (pre ++ v :: post)).emails ∧
    (∀ x ∈ st, x.pk = v.pk →
      x ∈ (send_verification_expiry_email env now st (pre ++ v :: post)).state) ∧
    (∀ w ∈ post, env.smtpOk w.user_id = true →
      w.pk ∈ (send_verification_expiry_email env now st (pre ++ v :: post)).emails) := by
  rcases task_allexists env now (pre ++ v :: post) st hall with ⟨h1, h2, h3⟩
  have hvmem : v ∈ pre ++ v :: post := List.mem_append.2 (Or.inr (List.mem_cons_self _ _))
  have hnotem : v.pk ∉ (send_verification_expiry_email env now st (pre ++ v :: post)).emails := by
    rw [h2]
    intro hmem
    rcases List.mem_map.1 hmem with ⟨w, hwf, hwpk⟩
    have hwb : w ∈ pre ++ v :: post := List.mem_of_mem_filter hwf
    have hwv : w = v := List.inj_on_of_nodup_map hnd hwb hvmem hwpk
    subst hwv
    have := (List.mem_filter.1 hwf).2
    rw [hfail] at this
    cases this
  refine ⟨h1, ?_, hnotem, ?_, ?_⟩
  · rw [h3]
    exact List.mem_map.2 ⟨v, List.mem_filter.2 ⟨hvmem, by rw [hfail]; rfl⟩, rfl⟩
  · intro x hx hxpk
    rw [task_state_char]
    refine List.mem_map.2 ⟨x, hx, ?_⟩
    apply stampEmailIf_not_mem
    rw [hxpk]
    exact hnotem
  · intro w hw hwok
    rw [h2]
    exact List.mem_map.2 ⟨w, List.mem_filter.2
      ⟨List.mem_append.2 (Or.inr (List.mem_cons_of_mem _ hw)), hwok⟩, rfl⟩

/-- Mail environment for the C5 witness: all users exist, the send to user 2
raises an `SMTPException`, all other sends succeed. -/
def c5env : MailEnv := ⟨fun _ => true, fun u => u != 2⟩

def c5w1 : SSPV := ⟨1, 1, "approved", some 60480000, none, 0⟩

def c5v : SSPV := ⟨2, 2, "approved", some 60480000, none, 0⟩

def c5w3 : SSPV := ⟨3, 3, "approved", some 60480000, none, 0⟩

/-- Claim C5, witness: in a three-record batch whose middle send fails, the
run does not raise, warns for user 2, skips its stamp, and still emails the
record after it. -/
theorem C5_smtp_witness :
    ((∀ w ∈ [c5w1] ++ c5v :: [c5w3], c5env.userExists w.user_id = true) ∧
      c5env.smtpOk c5v.user_id = false) ∧
    ((send_verification_expiry_email c5env 86400000 [c5w1, c5v, c5w3]
        ([c5w1] ++ c5v :: [c5w3])).raised = false ∧
      c5v.user_id ∈ (send_verification_expiry_email c5env 86400000 [c5w1, c5v, c5w3]
        ([c5w1] ++ c5v :: [c5w3])).warnings ∧
      c5v.pk ∉ (send_verification_expiry_email c5env 86400000 [c5w1, c5v, c5w3]
        ([c5w1] ++ c5v :: [c5w3])).emails ∧
      (∀ x ∈ [c5w1, c5v, c5w3], x.pk = c5v.pk →
        x ∈ (send_verification_expiry_email c5env 86400000 [c5w1, c5v, c5w3]
          ([c5w1] ++ c5v :: [c5w3])).state) ∧
      (∀ w ∈ [c5w3], c5env.smtpOk w.user_id = true →
        w.pk ∈ (send_verification_expiry_email c5env 86400000 [c5w1, c5v, c5w3]
          ([c5w1] ++ c5v :: [c5w3])).emails)) :=
  ⟨⟨by decide, by decide⟩,
    C5_smtp_failure_tolerated c5env 86400000 [c5w1, c5v, c5w3] [c5w1] [c5w3] c5v
      (by decide) (by decide) (by decide)⟩

/-! ### Claim C10 -/

/-- Claim C10: only SMTP errors are tolerated inside a batch.  When the user
lookup for one record fails, the exception propagates out of the task
(`raised`), the records at and after that point are neither emailed nor have
their store rows changed, while records processed before it that were
emailed keep their freshly stamped `expiry_email_date`. -/
theorem C10_non_smtp_exception_aborts (env : MailEnv) (now : Int) (st : List SSPV)
    (pre post : List SSPV) (v : SSPV)
    (hpre : ∀ w ∈ pre, env.userExists w.user_id = true)
    (hmiss : env.userExists v.user_id = false)
    (hnd : ((pre ++ v :: post).map (·.pk)).Nodup) :
    (send_verification_expiry_email env now st (pre ++ v :: post)).raised = true ∧
    (send_verification_expiry_email env now st (pre ++ v :: post)).emails
      = (pre.filter (fun w => env.smtpOk w.user_id)).map (·.pk) ∧
    (∀ w ∈ v :: post,
      w.pk ∉ (send_verification_expiry_email env now st (pre ++ v :: post)).emails ∧
      ∀ x ∈ st, x.pk = w.pk →
        x ∈ (send_verification_expiry_email env now st (pre ++ v :: post)).state) ∧
    (∀ w ∈ pre, env.smtpOk w.user_id = true →
      w.pk ∈ (send_verification_expiry_email env now st (pre ++ v :: post)).emails ∧
      ∀ s ∈ (send_verification_expiry_email env now st (pre ++ v :: post)).state,
        s.pk = w.pk → s.expiry_email_date = some now) := by
  rcases task_raise_char env now v post hmiss pre st hpre with ⟨h1, h2, h3⟩
  have hdisj : (pre.map (·.pk)).Disjoint ((v :: post).map (·.pk)) :=
    List.disjoint_of_nodup_append (by rw [← List.map_append]; exact hnd)
  have hnotem : ∀ w ∈ v :: post,
      w.pk ∉ (send_verification_expiry_email env now st (pre ++ v :: post)).emails := by
    intro w hw hmem
    rw [h2] at hmem
    rcases List.mem_map.1 hmem with ⟨x, hxf, hxpk⟩
    have hxpre : x ∈ pre := List.mem_of_mem_filter hxf
    exact hdisj (List.mem_map.2 ⟨x, hxpre, hxpk⟩) (List.mem_map.2 ⟨w, hw, rfl⟩)
  refine ⟨h1, h2, ?_, ?_⟩
  · intro w hw
    refine ⟨hnotem w hw, ?_⟩
    intro x hx hxpk
    rw [task_state_char]
    refine List.mem_map.2 ⟨x, hx, ?_⟩
    apply stampEmailIf_not_mem
    rw [hxpk]
    exact hnotem w hw
  · intro w hw hwok
    have hwem : w.pk ∈ (send_verification_expiry_email env now st (pre ++ v :: post)).emails := by
      rw [h2]
      exact List.mem_map.2 ⟨w, List.mem_filter.2 ⟨hw, hwok⟩, rfl⟩
    refine ⟨hwem, ?_⟩
    intro s hs hspk
    rw [task_state_char] at hs
    rcases List.mem_map.1 hs with ⟨x, hx, hxs⟩
    have hxpk : x.pk = w.pk := by
      rw [← hspk, ← hxs]
      exact (stampEmailIf_keeps _ now x).1.symm
    rw [← hxs, stampEmailIf_mem (by rw [hxpk]; exact hwem)]

/-- Mail environment for the C10 witness: user 2 does not exist, everything
else succeeds. -/
def c10env : MailEnv := ⟨fun u => u != 2, fun _ => true⟩

def c10w1 : SSPV := ⟨1, 1, "approved", some 60480000, none, 0⟩

def c10v : SSPV := ⟨2, 2, "approved", some 60480000, none, 0⟩

def c10w3 : SSPV := ⟨3, 3, "approved", some 60480000, none, 0⟩

/-- Claim C10, witness: in a three-record batch whose middle user is
missing, the exception propagates, the first record keeps its fresh stamp
and the last record is neither emailed nor stamped. -/
theorem C10_witness :
    ((∀ w ∈ [c10w1], c10env.userExists w.user_id = true) ∧
      c10env.userExists c10v.user_id = false) ∧
    ((send_verification_expiry_email c10env 86400000 [c10w1, c10v, c10w3]
        ([c10w1] ++ c10v :: [c10w3])).raised = true ∧
      (send_verification_expiry_email c10env 86400000 [c10w1, c10v, c10w3]
        ([c10w1] ++ c10v :: [c10w3])).emails
        = ([c10w1].filter (fun w => c10env.smtpOk w.user_id)).map (·.pk) ∧
      (∀ w ∈ c10v :: [c10w3],
        w.pk ∉ (send_verification_expiry_email c10env 86400000 [c10w1, c10v, c10w3]
          ([c10w1] ++ c10v :: [c10w3])).emails ∧
        ∀ x ∈ [c10w1, c10v, c10w3], x.pk = w.pk →
          x ∈ (send_verification_expiry_email c10env 86400000 [c10w1, c10v, c10w3]
            ([c10w1] ++ c10v :: [c10w3])).state) ∧
      (∀ w ∈ [c10w1], c10env.smtpOk w.user_id = true →
        w.pk ∈ (send_verification_expiry_email c10env 86400000 [c10w1, c10v, c10w3]
          ([c10w1] ++ c10v :: [c10w3])).emails ∧
        ∀ s ∈ (send_verification_expiry_email c10env 86400000 [c10w1, c10v, c10w3]
          ([c10w1] ++ c10v :: [c10w3])).state,
          s.pk = w.pk → s.expiry_email_date = some 86400000)) :=
  ⟨⟨by decide, by decide⟩,
    C10_non_smtp_exception_aborts c10env 86400000 [c10w1, c10v, c10w3] [c10w1] [c10w3] c10v
      (by decide) (by decide) (by decide)⟩
